import Mathlib

/-
  Shallow embedding of src/mm.c, a segregated-free-list dynamic memory
  allocator, for checking the natural-language specification against the code.

  Modelling conventions
  ---------------------
  * The target is x86-64: sizeof(header) = 32 (size_t size; bool freed;
    header *next; header *prev with padding), sizeof(footer) = 16
    (size_t size; bool freed with padding), so HSIZE = 32 and FSIZE = 16,
    matching the 48-byte overhead stated in the file comment of mm.c.
  * A heap block is modelled as a record carrying both the header fields and
    the footer fields (size and freed twice), because set_size and set_free in
    mm.c write both tags and some claims are about header/footer agreement.
    The prev/next link fields are not modelled on the block; the doubly linked
    free lists of flp_list are modelled as lists of block addresses, in list
    order from head to tail.  Unlinking a node (del_fl_seg) becomes erasing
    its address from the bucket list; pushing at the head (add_fl_seg)
    becomes consing its address.
  * The heap is modelled as an association list of (address, block) in address
    order.  Boundary-tag navigation (prev_blk via the footer before a header,
    next_blk via the size field) reaches exactly the list neighbours when the
    heap tiles its address range, so coalesce is embedded on a zipper
    (blocks before, the block, blocks after).
  * Machine integers are Nat with explicit remarks where C wraparound could
    differ; the relevant theorems carry the hypotheses under which both agree.
  * mem_sbrk (memlib.h, not under src/) is modelled by a Boolean oracle:
    success or failure of the single sbrk call an operation makes.
-/

namespace MM

/-! ## Constants from mm.c -/

def ALIGNMENT : Nat := 16
def MINCLASSSIZE : Nat := 48
def SHIFT : Nat := 5
def CLASSNUM : Nat := 16
def CHUNKSIZE : Nat := 2048

/-- sizeof(struct header) on x86-64. -/
def HSIZE : Nat := 32
/-- sizeof(struct footer) on x86-64. -/
def FSIZE : Nat := 16

/-- static size_t align(size_t x): rounds up to the nearest multiple of 16. -/
def align (x : Nat) : Nat := ALIGNMENT * ((x + ALIGNMENT - 1) / ALIGNMENT)

/-- Floor of log2 by repeated halving, with enough fuel for any 64-bit
    value; structurally recursive so that closed instances reduce in the
    kernel.  Agrees with Nat.log2 for arguments below 2^fuel. -/
def log2Aux : Nat → Nat → Nat
  | 0, _ => 0
  | fuel + 1, n => if n ≥ 2 then log2Aux fuel (n / 2) + 1 else 0

/-- Floor of log2 of a 64-bit value. -/
def log2C (n : Nat) : Nat := log2Aux 64 n

/-- static int log2Floor(size_t s) = (63) XOR __builtin_clzl(s).
    For 1 <= s < 2^64, __builtin_clzl(s) = 63 - floor(log2 s) = 63 - log2C s,
    and 63 XOR (63 - k) = k for k <= 63, computed here over Nat.
    (clzl on 0 is undefined in C; the Nat expression then yields 63.) -/
def log2Floor (s : Nat) : Int :=
  ((63 ^^^ (63 - log2C s) : Nat) : Int)

/-- static size_t max(size_t s1, size_t s2). -/
def cmax (s1 s2 : Nat) : Nat := if s1 ≥ s2 then s1 else s2

/-- static int map_to_class(size_t size): log2Floor(size) - SHIFT, clamped
    from above to CLASSNUM-1.  There is no clamp from below: the C function
    returns a negative int for small sizes. -/
def map_to_class (size : Nat) : Int :=
  let cls : Int := log2Floor size
  let actual : Int := cls - SHIFT
  if actual > (CLASSNUM : Int) - 1 then (CLASSNUM : Int) - 1 else actual

/-- static size_t alloc_size(size_t size) = align(size + HSIZE + FSIZE). -/
def alloc_size (size : Nat) : Nat := align (size + HSIZE + FSIZE)

/-! ## Data model -/

/-- One heap block: header fields (size, freed) and footer fields
    (fsize, ffreed).  The prev/next free-list links are modelled by the
    bucket lists instead. -/
structure Blk where
  size : Nat
  freed : Bool
  fsize : Nat
  ffreed : Bool
deriving DecidableEq, Repr

/-- Allocator state: the heap as an (address, block) association list in
    address order, the 16 bucket heads flp_list as address lists indexed by
    the C int class (Int, since map_to_class can be negative), and the
    frees counter.  The mallocs/extends counters of mm.c are not observed by
    any claim and are omitted. -/
structure AllocSt where
  heap : List (Nat × Blk)
  fl : Int → List Nat
  frees : Int

/-- Classes start..CLASSNUM-1 as a list of C ints (empty when start > 15),
    the iteration space of the for loop in find_fit_seg. -/
def intRange (start stop : Int) : List Int :=
  (List.range (stop - start).toNat).map (fun (i : Nat) => start + (i : Int))

/-- Dereference a block pointer: look an address up in the heap. -/
def lookupBlk (h : List (Nat × Blk)) (a : Nat) : Option Blk :=
  (h.find? (fun p => p.1 = a)).map (fun p => p.2)

/-- Replace the block stored at address a. -/
def heap_upd (h : List (Nat × Blk)) (a : Nat) (b : Blk) : List (Nat × Blk) :=
  h.map (fun p => if p.1 = a then (a, b) else p)

/-- Replace the block at address a by two carved blocks: left at a and
    right at a + len (the in-place effect of split_block). -/
def heap_split2 (h : List (Nat × Blk)) (a : Nat) (left right : Blk)
    (len : Nat) : List (Nat × Blk) :=
  h.flatMap (fun p => if p.1 = a then [(a, left), (a + len, right)] else [p])

/-- Bucket update: erase one occurrence of address a from bucket k. -/
def flErase (fl : Int → List Nat) (k : Int) (a : Nat) : Int → List Nat :=
  fun j => if j = k then (fl k).erase a else fl j

/-- Bucket update: push address a at the head of bucket k. -/
def flCons (fl : Int → List Nat) (k : Int) (a : Nat) : Int → List Nat :=
  fun j => if j = k then a :: fl k else fl j

/-- static void set_free(header *block, bool freed): writes the freed flag
    into the header and into the footer located through the current size. -/
def set_free (b : Blk) (f : Bool) : Blk := { b with freed := f, ffreed := f }

/-- static void set_size(header *block, size_t size): writes the size into
    the header and into the (relocated) footer. -/
def set_size (b : Blk) (s : Nat) : Blk := { b with size := s, fsize := s }

/-! ## Free-list index operations -/

/-- static void del_fl_seg(header *block, size_t size).
    bsize is the value of the size field read through the block pointer
    (block->size); the trailing size argument is the parameter of the C
    function, which the body never uses: classification is
    map_to_class(block->size).  Unlinking a node of a well-formed doubly
    linked bucket list is modelled as erasing its address. -/
def del_fl_seg (st : AllocSt) (bsize : Nat) (a : Nat) (size : Nat) : AllocSt :=
  { st with
    frees := st.frees - 1,
    fl := flErase st.fl (map_to_class bsize) a }

/-- static void add_fl_seg(header *block, size_t size): push the block at the
    head of the bucket of map_to_class(size). -/
def add_fl_seg (st : AllocSt) (a : Nat) (size : Nat) : AllocSt :=
  { st with
    frees := st.frees + 1,
    fl := flCons st.fl (map_to_class size) a }

/-! ## Placement engine -/

/-- The inner while loop of find_fit_seg over one bucket: follow the list,
    return the first block whose size is at least asize.  An address that
    does not resolve in the heap is skipped (in C this would be a wild
    pointer dereference; it cannot arise in well-formed states). -/
def find_in_bucket (h : List (Nat × Blk)) (asize : Nat) :
    List Nat → Option Nat
  | [] => none
  | a :: rest =>
    match lookupBlk h a with
    | some b => if asize ≤ b.size then some a else find_in_bucket h asize rest
    | none => find_in_bucket h asize rest

/-- static header *find_fit_seg(size_t asize): scan buckets from
    map_to_class(asize) up to CLASSNUM-1, each head to tail, returning the
    first fitting block. -/
def find_fit_seg (st : AllocSt) (asize : Nat) : Option Nat :=
  (intRange (map_to_class asize) (CLASSNUM : Int)).findSome?
    (fun k => find_in_bucket st.heap asize (st.fl k))

/-- void split_block(header *free_block, size_t len).
    Deletes the block from its bucket; if the remainder cannot hold a header
    and footer (size_remain < HSIZE + FSIZE) the whole block is consumed,
    otherwise the block is shrunk to len and the remainder becomes a new free
    block at a + len, inserted into its bucket.
    Callers guarantee len <= free_block->size, under which Nat subtraction
    agrees with the size_t subtraction of the C code. -/
def split_block (st : AllocSt) (a : Nat) (len : Nat) : AllocSt :=
  match lookupBlk st.heap a with
  | none => st
  | some free_block =>
    let new_size := len
    let old_size := free_block.size
    let size_remain := old_size - new_size
    if size_remain < HSIZE + FSIZE then
      let st1 := del_fl_seg st free_block.size a old_size
      { st1 with heap := heap_upd st1.heap a (set_free free_block false) }
    else
      let st1 := del_fl_seg st free_block.size a old_size
      let left := set_free (set_size free_block new_size) false
      let right : Blk := ⟨size_remain, true, size_remain, true⟩
      let st2 := { st1 with heap := heap_split2 st1.heap a left right new_size }
      add_fl_seg st2 (a + new_size) size_remain

/-! ## Coalescer -/

/-- static header *coalesce(header *free_block), embedded on a zipper:
    pre are the blocks before the block at address a, post the blocks after.
    prev_blk reaches the footer immediately below the header and through it
    the previous block, i.e. the last element of pre; next_blk reaches the
    header at a + size, i.e. the head of post (both nonexistent at the heap
    bounds).  Returns the updated state and the address of the surviving
    block. -/
def coalesce (fl0 : Int → List Nat) (frees0 : Int)
    (pre : List (Nat × Blk)) (a : Nat) (b : Blk)
    (post : List (Nat × Blk)) : AllocSt × Nat :=
  let prev_free : Bool :=
    match pre.getLast? with
    | some p => p.2.freed
    | none => false
  let next_free : Bool :=
    match post.head? with
    | some p => p.2.freed
    | none => false
  if prev_free then
    match pre.getLast? with
    | none => (⟨pre ++ (a, b) :: post, fl0, frees0⟩, a)  -- unreachable
    | some (pa, pb) =>
      if next_free then
        match post.head? with
        | none => (⟨pre ++ (a, b) :: post, fl0, frees0⟩, a)  -- unreachable
        | some (na, nb) =>
          -- case 4: merge prev, self and next
          let new_size := pb.size + b.size + nb.size
          let st1 := del_fl_seg ⟨pre, fl0, frees0⟩ nb.size na nb.size
          let st2 := del_fl_seg st1 pb.size pa pb.size
          let merged := set_free (set_size pb new_size) true
          let st3 := add_fl_seg st2 pa new_size
          (⟨pre.dropLast ++ (pa, merged) :: post.tail, st3.fl, st3.frees⟩, pa)
      else
        -- case 2: merge prev and self
        let new_size := pb.size + b.size
        let st1 := del_fl_seg ⟨pre, fl0, frees0⟩ pb.size pa pb.size
        let merged := set_free (set_size pb new_size) true
        let st2 := add_fl_seg st1 pa new_size
        (⟨pre.dropLast ++ (pa, merged) :: post, st2.fl, st2.frees⟩, pa)
  else
    if next_free then
      match post.head? with
      | none => (⟨pre ++ (a, b) :: post, fl0, frees0⟩, a)  -- unreachable
      | some (na, nb) =>
        -- case 3: merge self and next
        let new_size := b.size + nb.size
        let st1 := del_fl_seg ⟨pre, fl0, frees0⟩ nb.size na nb.size
        let merged := set_free (set_size b new_size) true
        let st2 := add_fl_seg st1 a new_size
        (⟨pre ++ (a, merged) :: post.tail, st2.fl, st2.frees⟩, a)
    else
      -- case 1: neither neighbour free; the block goes in as it is
      let st1 := add_fl_seg ⟨pre, fl0, frees0⟩ a b.size
      (⟨pre ++ (a, b) :: post, st1.fl, st1.frees⟩, a)

/-- Locate the block whose header is at address a, splitting the heap into a
    zipper (the model of deriving a header pointer from a payload pointer). -/
def heap_zipper : List (Nat × Blk) → Nat →
    Option (List (Nat × Blk) × Blk × List (Nat × Blk))
  | [], _ => none
  | p :: rest, a =>
    if p.1 = a then some ([], p.2, rest)
    else (heap_zipper rest a).map (fun q => (p :: q.1, q.2.1, q.2.2))

/-! ## Heap extension and public surface -/

/-- The current break: one past the last block (the end variable of mm.c,
    which under heap tiling equals last address + last size). -/
def heap_end (st : AllocSt) : Nat :=
  match st.heap.getLast? with
  | some p => p.1 + p.2.size
  | none => 0

/-- static header *extend_heap(size_t size): one mem_sbrk call (modelled by
    the Boolean oracle sbrkOK); on success the fresh span becomes a free
    block at the old break, tags written, then coalesce runs on it (the new
    block is last, so its zipper is the whole heap before it). -/
def extend_heap (st : AllocSt) (sbrkOK : Bool) (size : Nat) :
    Option (AllocSt × Nat) :=
  if sbrkOK then
    let a := heap_end st
    let hblock : Blk := ⟨size, true, size, true⟩
    some (coalesce st.fl st.frees st.heap a hblock [])
  else none

/-- Result of malloc: the returned payload pointer, the state after, the
    size passed to mem_sbrk when extend_heap was called, and whether that
    call failed. -/
structure MallocOut where
  ret : Option Nat
  st : AllocSt
  sbrkReq : Option Nat
  sbrkFailed : Bool

/-- void *malloc(size_t size).  Payload pointers are header address + HSIZE
    (the ++fit_block of the C code).  When no fit exists, prev_blk(end)
    reads the last block; mm.c would dereference NULL on an empty heap, so
    the model returns none there (unreachable after mm_init).
    The extend size in the free-tail case is actual_size - last_block->size:
    size_t subtraction, equal to Nat subtraction whenever
    last_block->size <= actual_size, which the free-list invariant
    guarantees at every reachable miss. -/
def mm_malloc (st : AllocSt) (sbrkOK : Bool) (size : Nat) : MallocOut :=
  if size = 0 then ⟨none, st, none, false⟩
  else
    let actual_size := alloc_size size
    match find_fit_seg st actual_size with
    | some a => ⟨some (a + HSIZE), split_block st a actual_size, none, false⟩
    | none =>
      match st.heap.getLast? with
      | none => ⟨none, st, none, false⟩
      | some (_, last_block) =>
        let extend_size :=
          if last_block.freed then actual_size - last_block.size
          else cmax actual_size CHUNKSIZE
        match extend_heap st sbrkOK extend_size with
        | none => ⟨none, st, some extend_size, true⟩
        | some (st2, na) =>
          ⟨some (na + HSIZE), split_block st2 na actual_size, some extend_size,
            false⟩

/-- void free(void *ptr): a NULL pointer is a no-op; otherwise the header is
    at ptr - HSIZE, both tags are marked free, and coalesce runs. -/
def mm_free (st : AllocSt) (ptr : Nat) : AllocSt :=
  if ptr = 0 then st
  else
    let a := ptr - HSIZE
    match heap_zipper st.heap a with
    | none => st
    | some (pre, b, post) =>
      (coalesce st.fl st.frees pre a (set_free b true) post).1

/-- The sign test of realloc: (int)(size) < 0.  The cast is to a 32-bit int,
    so the test holds exactly when bit 31 of the low 32 bits of size is set. -/
def size_as_int_neg (size : Nat) : Bool := 2 ^ 31 ≤ size % 2 ^ 32

/-- void *realloc(void *oldptr, size_t size).  oldptr = none models NULL.
    The payload copy (memcpy) moves bytes only and is invisible at the
    metadata level of this model; the branches for a smaller and a larger
    new size differ only in the copied length and collapse to one. -/
def mm_realloc (st : AllocSt) (sbrkOK : Bool) (oldptr : Option Nat)
    (size : Nat) : Option Nat × AllocSt :=
  if size_as_int_neg size then (none, st)
  else if size = 0 then
    match oldptr with
    | none => (none, st)
    | some p => (none, mm_free st p)
  else
    match oldptr with
    | none =>
      let out := mm_malloc st sbrkOK size
      (out.ret, out.st)
    | some p =>
      match lookupBlk st.heap (p - HSIZE) with
      | none => (none, st)
      | some old_block =>
        let oldsize := old_block.size
        let newsize := alloc_size size
        if newsize = oldsize then (some p, st)
        else
          let out := mm_malloc st sbrkOK size
          match out.ret with
          | none => (none, out.st)
          | some np => (some np, mm_free out.st p)

/-- bool mm_init(void).  mem_sbrk is modelled from the spec (memlib.h is not
    under src/): on success it returns the old break, here normalised to
    address 0, and the fresh region holds arbitrary bytes; on failure it
    returns (void * )(-1).  mm.c tests *(char * )heap_brk == -1, i.e. the
    first BYTE of the region, so the model takes that byte as the parameter;
    the genuine failure case would dereference address -1 (undefined
    behaviour) and is outside the model. -/
def mm_init (firstByte : Int) : Bool × AllocSt :=
  let init_size := alloc_size CHUNKSIZE
  if firstByte = -1 then (false, ⟨[], fun _ => [], 0⟩)
  else
    let heap0 : Blk := ⟨init_size, true, init_size, true⟩
    let st : AllocSt := ⟨[(0, heap0)], fun _ => [], 0⟩
    (true, add_fl_seg st 0 init_size)

/-! ## Derived notions used by the claims -/

/-- No two address-adjacent blocks are both free (spec invariant 4). -/
def noAdjFree (h : List (Nat × Blk)) : Prop :=
  List.Chain' (fun p q : Nat × Blk => ¬(p.2.freed = true ∧ q.2.freed = true)) h

/-- Total number of bytes covered by the heap blocks. -/
def heapSize (h : List (Nat × Blk)) : Nat := (h.map (fun p => p.2.size)).sum

/-- Number of occurrences of address a across the sixteen buckets. -/
def countFL (fl : Int → List Nat) (a : Nat) : Nat :=
  ((intRange 0 (CLASSNUM : Int)).map (fun k => (fl k).count a)).sum

/-- Total number of blocks across the sixteen buckets (get_FL_count). -/
def totalFL (fl : Int → List Nat) : Nat :=
  ((intRange 0 (CLASSNUM : Int)).map (fun k => (fl k).length)).sum

end MM

namespace MM

/-! ## Arithmetic helper lemmas -/

theorem xor63_sub (k : Nat) (hk : k ≤ 63) : 63 ^^^ (63 - k) = k := by
  have h : ∀ j : Fin 64, 63 ^^^ (63 - j.val) = j.val := by decide
  exact h ⟨k, by omega⟩

theorem log2Aux_eq (fuel : Nat) :
    ∀ n : Nat, n < 2 ^ fuel → log2Aux fuel n = Nat.log2 n := by
  induction fuel with
  | zero =>
    intro n hn
    interval_cases n
    rw [Nat.log2]
    simp [log2Aux]
  | succ f ih =>
    intro n hn
    by_cases h2 : n ≥ 2
    · have hdiv : n / 2 < 2 ^ f := by
        have : n < 2 ^ f * 2 := by
          rw [pow_succ] at hn; omega
        omega
      rw [Nat.log2]
      simp only [log2Aux, h2, if_pos]
      rw [ih (n / 2) hdiv]
    · rw [Nat.log2]
      simp [log2Aux, h2]

theorem log2C_eq (n : Nat) (h : n < 2 ^ 64) : log2C n = Nat.log2 n :=
  log2Aux_eq 64 n h

theorem log2_le_63 (s : Nat) (h : s < 2 ^ 64) : Nat.log2 s ≤ 63 := by
  by_cases h0 : s = 0
  · rw [Nat.log2]
    simp [h0]
  · have := (Nat.log2_lt h0).mpr h
    omega

theorem log2Floor_eq (s : Nat) (h : s < 2 ^ 64) :
    log2Floor s = (Nat.log2 s : Int) := by
  unfold log2Floor
  rw [log2C_eq s h, xor63_sub (Nat.log2 s) (log2_le_63 s h)]

theorem log2_mono {s t : Nat} (h : s ≤ t) : Nat.log2 s ≤ Nat.log2 t := by
  rw [Nat.log2_eq_log_two, Nat.log2_eq_log_two]
  exact Nat.log_mono_right h

theorem map_to_class_le_15 (s : Nat) : map_to_class s ≤ 15 := by
  unfold map_to_class CLASSNUM
  dsimp only
  split <;> omega

theorem map_to_class_mono {s t : Nat} (hst : s ≤ t) (ht : t < 2 ^ 64) :
    map_to_class s ≤ map_to_class t := by
  have hs : s < 2 ^ 64 := lt_of_le_of_lt hst ht
  have hl : Nat.log2 s ≤ Nat.log2 t := log2_mono hst
  unfold map_to_class
  rw [log2Floor_eq s hs, log2Floor_eq t ht]
  dsimp only
  split <;> split <;> omega

theorem map_to_class_nonneg {s : Nat} (h32 : 32 ≤ s) (h : s < 2 ^ 64) :
    0 ≤ map_to_class s := by
  have h5 : 5 ≤ Nat.log2 s := by
    have h1 : Nat.log2 32 ≤ Nat.log2 s := log2_mono h32
    have h2 : Nat.log2 32 = 5 := by
      rw [← log2C_eq 32 (by norm_num)]
      decide
    omega
  unfold map_to_class SHIFT CLASSNUM
  rw [log2Floor_eq s h]
  dsimp only
  split <;> omega

/-! ## Claim C6 -/

/-- Claim C6 counterexample: the claim states that for every S ≥ 1 the
    size-to-class map returns clamp(floor(log2 S) - 5, 0, 15) and is never
    below 0, but at S = 16 the code returns -1: map_to_class has no lower
    clamp, and a negative result indexes flp_list out of bounds in C. -/
theorem c6_counterexample : map_to_class 16 = -1 ∧ map_to_class 16 < 0 := by
  decide

/-- Claim C6 (amended): for 1 ≤ S < 2^64 the size-to-class map returns
    min(floor(log2 S) - 5, 15): it is clamped from above at 15 but not from
    below at 0; the result is guaranteed nonnegative only once S ≥ 32, and
    from there on it agrees with the clamp the claim states. -/
theorem c6_amended (S : Nat) (h1 : 1 ≤ S) (h2 : S < 2 ^ 64) :
    map_to_class S = min ((Nat.log2 S : Int) - 5) 15 ∧
    map_to_class S ≤ 15 ∧
    (32 ≤ S → 0 ≤ map_to_class S) := by
  refine ⟨?_, map_to_class_le_15 S, fun h32 => map_to_class_nonneg h32 h2⟩
  unfold map_to_class SHIFT CLASSNUM
  rw [log2Floor_eq S h2]
  dsimp only
  rw [min_def]
  split <;> split <;> omega

theorem c6_witness :
    (1 ≤ 2096 ∧ 2096 < 2 ^ 64) ∧
    (map_to_class 2096 = min ((Nat.log2 2096 : Int) - 5) 15 ∧
      map_to_class 2096 ≤ 15 ∧ (32 ≤ 2096 → 0 ≤ map_to_class 2096)) :=
  ⟨⟨by norm_num, by norm_num⟩, c6_amended 2096 (by norm_num) (by norm_num)⟩

/-! ## Claim C1 -/

/-- A one-block heap: a free block of size 112 at address 0, registered in
    bucket map_to_class(112) = 1. -/
def c1St : AllocSt :=
  ⟨[(0, ⟨112, true, 112, true⟩)], (fun k => if k = 1 then [0] else []), 1⟩

/-- Claim C1 counterexample: splitting a block of size 112 at requested size
    64 leaves remainder 48, which is below header + footer + 16 = 64, so the
    claim says the whole block is consumed; the code instead splits (its
    threshold is HSIZE + FSIZE = 48), and the carved remainder block has
    size 48, below the minimum block size of 64 the claim asserts for every
    heap block. -/
theorem c1_counterexample :
    112 - 64 < HSIZE + FSIZE + 16 ∧
    (split_block c1St 0 64).heap =
      [(0, ⟨64, false, 64, false⟩), (64, ⟨48, true, 48, true⟩)] ∧
    (split_block c1St 0 64).fl 1 = [] ∧
    (split_block c1St 0 64).fl 0 = [64] := by
  decide

/-- Claim C1 (amended): split(block, requested) consumes the entire block
    (removes it from the index and marks it allocated without carving a
    remainder) exactly when block.size - requested < HSIZE + FSIZE = 48, the
    size of a header plus a footer; when it does split, the carved remainder
    block has size at least MINCLASSSIZE = 48, so no block below 48 bytes is
    ever created. -/
theorem c1_amended (st : AllocSt) (a len : Nat) (b : Blk)
    (hb : lookupBlk st.heap a = some b) (hlen : len ≤ b.size) :
    (b.size - len < HSIZE + FSIZE →
      (split_block st a len).heap = heap_upd st.heap a (set_free b false) ∧
      (split_block st a len).fl =
        flErase st.fl (map_to_class b.size) a) ∧
    (HSIZE + FSIZE ≤ b.size - len →
      (split_block st a len).heap =
        heap_split2 st.heap a (set_free (set_size b len) false)
          ⟨b.size - len, true, b.size - len, true⟩ len ∧
      (split_block st a len).fl =
        flCons (flErase st.fl (map_to_class b.size) a)
          (map_to_class (b.size - len)) (a + len) ∧
      MINCLASSSIZE ≤ b.size - len) := by
  constructor
  · intro h
    unfold split_block
    rw [hb]
    dsimp only
    rw [if_pos h]
    exact ⟨rfl, rfl⟩
  · intro h
    unfold split_block
    rw [hb]
    dsimp only
    rw [if_neg (by omega)]
    refine ⟨rfl, rfl, ?_⟩
    unfold MINCLASSSIZE
    unfold HSIZE FSIZE at h
    omega

theorem c1_witness :
    (lookupBlk c1St.heap 0 = some ⟨112, true, 112, true⟩ ∧ 64 ≤ 112) ∧
    (HSIZE + FSIZE ≤ 112 - 64 →
      (split_block c1St 0 64).heap =
        heap_split2 c1St.heap 0
          (set_free (set_size ⟨112, true, 112, true⟩ 64) false)
          ⟨112 - 64, true, 112 - 64, true⟩ 64 ∧
      (split_block c1St 0 64).fl =
        flCons (flErase c1St.fl (map_to_class 112) 0)
          (map_to_class (112 - 64)) (0 + 64) ∧
      MINCLASSSIZE ≤ 112 - 64) :=
  ⟨⟨by decide, by decide⟩,
    (c1_amended c1St 0 64 ⟨112, true, 112, true⟩ (by decide) (by decide)).2⟩

end MM

namespace MM

/-! ## Claim C2 -/

/-- State for the remove-classification counterexample: address 5 sits once
    in bucket 7 (= map_to_class 4096) and once in bucket 1
    (= map_to_class 64). -/
def c2St : AllocSt :=
  ⟨[], (fun k => if k = 7 then [5] else if k = 1 then [5] else []), 2⟩

/-- Claim C2 counterexample: removing a block whose current size field is 64
    while passing 4096 as the size argument unlinks from bucket
    map_to_class(64) = 1 and leaves bucket map_to_class(4096) = 7 untouched:
    del_fl_seg classifies by the size field of the block, and the size
    argument the caller passes is ignored by its body. -/
theorem c2_counterexample :
    map_to_class 4096 = 7 ∧ map_to_class 64 = 1 ∧
    (del_fl_seg c2St 64 5 4096).fl 7 = [5] ∧
    (del_fl_seg c2St 64 5 4096).fl 1 = [] := by
  decide

/-- Claim C2 (amended): del_fl_seg ignores its size argument entirely and
    classifies by the size field the block currently carries: the bucket of
    map_to_class(block->size) loses one occurrence of the address, every
    other bucket is unchanged, and the result does not depend on the size
    argument.  Because every call site in mm.c deletes a block before
    resizing it, that field still holds the size the block had when it was
    inserted, so the examined bucket is the one containing the block. -/
theorem c2_amended (st : AllocSt) (bsize a sz1 sz2 : Nat) :
    del_fl_seg st bsize a sz1 = del_fl_seg st bsize a sz2 ∧
    (del_fl_seg st bsize a sz1).fl (map_to_class bsize) =
      (st.fl (map_to_class bsize)).erase a ∧
    ∀ k, k ≠ map_to_class bsize →
      (del_fl_seg st bsize a sz1).fl k = st.fl k := by
  refine ⟨rfl, ?_, fun k hk => ?_⟩
  · simp [del_fl_seg, flErase]
  · simp [del_fl_seg, flErase, hk]

theorem c2_witness :
    del_fl_seg c2St 64 5 16 = del_fl_seg c2St 64 5 4096 ∧
    (del_fl_seg c2St 64 5 16).fl (map_to_class 64) =
      (c2St.fl (map_to_class 64)).erase 5 ∧
    (del_fl_seg c2St 64 5 16).fl 7 = c2St.fl 7 :=
  ⟨(c2_amended c2St 64 5 16 4096).1,
    (c2_amended c2St 64 5 16 4096).2.1,
    (c2_amended c2St 64 5 16 4096).2.2 7 (by decide)⟩

/-! ## Claim C3 -/

/-- A minimal state for exercising realloc: one allocated block at 0. -/
def c3St : AllocSt := ⟨[(0, ⟨64, false, 64, false⟩)], (fun _ => []), 0⟩

/-- Claim C3 counterexample: n = 2^31 is nonnegative as a signed 64-bit
    machine word (2^31 < 2^63), yet the sign test of realloc, which casts to
    a 32-bit int, rejects it and realloc returns NULL for the valid pointer
    at payload address 32.  The test moreover accepts n = 2^63, whose 64-bit
    signed interpretation is negative (its bit 63 is set). -/
theorem c3_counterexample :
    (2 ^ 31 : Nat) < 2 ^ 63 ∧
    size_as_int_neg (2 ^ 31) = true ∧
    mm_realloc c3St true (some 32) (2 ^ 31) = (none, c3St) ∧
    (2 ^ 63 : Nat) < 2 ^ 64 ∧ 2 ^ 63 ≤ (2 ^ 63 : Nat) ∧
    size_as_int_neg (2 ^ 63) = false := by
  refine ⟨by norm_num, by decide, rfl, by norm_num, le_refl _, by decide⟩

/-- Claim C3 (amended): the sign test of realloc casts n to a 32-bit signed
    int, so for every pointer realloc returns NULL with the state unchanged
    exactly when bit 31 of the low 32 bits of n is set, i.e. when
    n % 2^32 >= 2^31 — not when the signed machine-word (64-bit)
    interpretation of n is negative. -/
theorem c3_amended (st : AllocSt) (ok : Bool) (p n : Nat) :
    (size_as_int_neg n = true ↔ 2 ^ 31 ≤ n % 2 ^ 32) ∧
    (2 ^ 31 ≤ n % 2 ^ 32 → mm_realloc st ok (some p) n = (none, st)) := by
  constructor
  · simp [size_as_int_neg]
  · intro h
    unfold mm_realloc
    rw [if_pos (by simpa [size_as_int_neg] using h)]

theorem c3_witness :
    2 ^ 31 ≤ (2 ^ 31 : Nat) % 2 ^ 32 ∧
    mm_realloc c3St false (some 32) (2 ^ 31) = (none, c3St) :=
  ⟨by decide, (c3_amended c3St false 32 (2 ^ 31)).2 (by decide)⟩

/-! ## Claim C4 -/

/-- Claim C4 (code-bug exhibit): mm_init tests the first byte of the region
    returned by mem_sbrk against -1 (the expression is a dereference,
    *(char * )heap_brk == -1) instead of testing the returned pointer, as
    extend_heap correctly does.  On a successful extension whose first byte
    happens to be 0xFF (signed char -1) mm_init returns false, contradicting
    the claim that false is returned exactly when the extension fails; on a
    genuine failure the code would dereference address (void * )(-1) instead
    of returning false.  When the byte test passes, the rest of the claim
    does hold, as the remaining conjuncts record: the heap is exactly one
    free block of size alloc_size(2048) = 2096 with header and footer in
    agreement, present once in its free-list bucket. -/
theorem c4_code_bug :
    (mm_init (-1)).1 = false ∧
    (mm_init 0).1 = true ∧
    (mm_init 0).2.heap = [(0, ⟨2096, true, 2096, true⟩)] ∧
    map_to_class 2096 = 6 ∧
    (mm_init 0).2.fl 6 = [0] ∧
    (mm_init 0).2.frees = 1 ∧
    alloc_size CHUNKSIZE = 2096 := by
  decide

end MM

namespace MM

/-! ## Range and bucket-scan lemmas -/

theorem mem_intRange {k s t : Int} : k ∈ intRange s t ↔ s ≤ k ∧ k < t := by
  unfold intRange
  constructor
  · intro hk
    obtain ⟨i, hi, rfl⟩ := List.mem_map.mp hk
    have h2 : i < (t - s).toNat := List.mem_range.mp hi
    omega
  · intro hk
    apply List.mem_map.mpr
    exact ⟨(k - s).toNat, List.mem_range.mpr (by omega), by omega⟩

theorem find_in_bucket_cons (h : List (Nat × Blk)) (asize x : Nat)
    (rest : List Nat) :
    find_in_bucket h asize (x :: rest) =
      match lookupBlk h x with
      | some b =>
        if asize ≤ b.size then some x else find_in_bucket h asize rest
      | none => find_in_bucket h asize rest := rfl

theorem find_in_bucket_none_iff (h : List (Nat × Blk)) (asize : Nat)
    (l : List Nat) :
    find_in_bucket h asize l = none ↔
      ∀ a ∈ l, ∀ b, lookupBlk h a = some b → b.size < asize := by
  induction l with
  | nil => simp [find_in_bucket]
  | cons x rest ih =>
    rw [find_in_bucket_cons]
    constructor
    · intro hn a ha b hb
      rcases List.mem_cons.mp ha with rfl | ha'
      · rw [hb] at hn
        dsimp only at hn
        by_cases hs : asize ≤ b.size
        · rw [if_pos hs] at hn
          cases hn
        · omega
      · refine (ih.mp ?_) a ha' b hb
        cases hx : lookupBlk h x with
        | none =>
          rw [hx] at hn
          exact hn
        | some c =>
          rw [hx] at hn
          dsimp only at hn
          by_cases hs : asize ≤ c.size
          · rw [if_pos hs] at hn
            cases hn
          · rw [if_neg hs] at hn
            exact hn
    · intro hall
      have hrest : find_in_bucket h asize rest = none :=
        ih.mpr (fun a ha b hb => hall a (List.mem_cons_of_mem _ ha) b hb)
      cases hx : lookupBlk h x with
      | none => exact hrest
      | some c =>
        dsimp only
        have hc := hall x (List.mem_cons_self _ _) c hx
        rw [if_neg (by omega)]
        exact hrest

theorem find_in_bucket_some (h : List (Nat × Blk)) (asize : Nat)
    (l : List Nat) (a : Nat) (hf : find_in_bucket h asize l = some a) :
    a ∈ l ∧ ∃ b, lookupBlk h a = some b ∧ asize ≤ b.size := by
  induction l with
  | nil => cases hf
  | cons x rest ih =>
    rw [find_in_bucket_cons] at hf
    cases hx : lookupBlk h x with
    | none =>
      rw [hx] at hf
      have hr := ih hf
      exact ⟨List.mem_cons_of_mem _ hr.1, hr.2⟩
    | some b =>
      rw [hx] at hf
      dsimp only at hf
      by_cases hs : asize ≤ b.size
      · rw [if_pos hs] at hf
        cases hf
        exact ⟨List.mem_cons_self _ _, b, hx, hs⟩
      · rw [if_neg hs] at hf
        have hr := ih hf
        exact ⟨List.mem_cons_of_mem _ hr.1, hr.2⟩

/-- If a bucket contains a fitting block, the scan of that bucket does not
    come back empty. -/
theorem find_in_bucket_ne_none (h : List (Nat × Blk)) (asize : Nat)
    (l : List Nat) (x : Nat) (c : Blk) (hx : x ∈ l)
    (hc : lookupBlk h x = some c) (hs : asize ≤ c.size) :
    find_in_bucket h asize l ≠ none := by
  intro hn
  have := (find_in_bucket_none_iff h asize l).mp hn x hx c hc
  omega

/-! ## Claim C5 -/

/-- Claim C5: find_fit_seg returns NULL exactly when no block registered in
    the index has size at least asize; the monotone class map guarantees
    that the buckets strictly below map_to_class(asize), which the scan
    skips, hold only blocks of size below asize.  When it returns a block,
    that block has size at least asize.  Hypotheses: asize is at least the
    minimum aligned request (64) and fits in 64 bits, and every indexed
    address resolves to a block of the bucket given by the class of its
    size (spec invariants 4 and 5). -/
theorem c5_find_fit (st : AllocSt) (asize : Nat)
    (h64 : 64 ≤ asize) (hlt : asize < 2 ^ 64)
    (hinv : ∀ k ∈ intRange 0 (CLASSNUM : Int), ∀ a ∈ st.fl k, ∃ b,
      lookupBlk st.heap a = some b ∧ map_to_class b.size = k ∧
        b.size < 2 ^ 64) :
    (find_fit_seg st asize = none ↔
      ∀ k ∈ intRange 0 (CLASSNUM : Int), ∀ a ∈ st.fl k, ∀ b,
        lookupBlk st.heap a = some b → b.size < asize) ∧
    (∀ a, find_fit_seg st asize = some a →
      ∃ b, lookupBlk st.heap a = some b ∧ asize ≤ b.size) := by
  have hstart : 0 ≤ map_to_class asize :=
    map_to_class_nonneg (by omega) hlt
  constructor
  · constructor
    · intro hnone k hk a ha b hb
      obtain ⟨b', hb', hcls, hb64⟩ := hinv k hk a ha
      rw [hb] at hb'
      cases hb'
      by_cases hlow : map_to_class asize ≤ k
      · -- the bucket is in the scanned range
        have hkmem : k ∈ intRange (map_to_class asize) (CLASSNUM : Int) := by
          rw [mem_intRange]
          rw [mem_intRange] at hk
          exact ⟨hlow, hk.2⟩
        have hbn : find_in_bucket st.heap asize (st.fl k) = none := by
          unfold find_fit_seg at hnone
          exact List.findSome?_eq_none_iff.mp hnone k hkmem
        exact (find_in_bucket_none_iff st.heap asize (st.fl k)).mp hbn a ha b hb
      · -- a strictly lower class: monotonicity forces b.size < asize
        by_contra hge
        have hmono : map_to_class asize ≤ map_to_class b.size :=
          map_to_class_mono (by omega) hb64
        omega
    · intro hall
      unfold find_fit_seg
      rw [List.findSome?_eq_none_iff]
      intro k hk
      rw [mem_intRange] at hk
      have hk16 : k ∈ intRange 0 (CLASSNUM : Int) := by
        rw [mem_intRange]
        constructor
        · omega
        · exact hk.2
      rw [find_in_bucket_none_iff]
      intro a ha b hb
      exact hall k hk16 a ha b hb
  · intro a hf
    unfold find_fit_seg at hf
    obtain ⟨k, hk, hfk⟩ := List.exists_of_findSome?_eq_some hf
    exact (find_in_bucket_some st.heap asize (st.fl k) a hfk).2

/-- A one-free-block state for the find-fit witness: the initial heap block
    of size 2096, registered in bucket 6. -/
def c5St : AllocSt :=
  ⟨[(0, ⟨2096, true, 2096, true⟩)], (fun k => if k = 6 then [0] else []), 1⟩

theorem c5_witness :
    (64 ≤ 80 ∧ 80 < 2 ^ 64) ∧
    ((find_fit_seg c5St 80 = none ↔
      ∀ k ∈ intRange 0 (CLASSNUM : Int), ∀ a ∈ c5St.fl k, ∀ b,
        lookupBlk c5St.heap a = some b → b.size < 80) ∧
    (∀ a, find_fit_seg c5St 80 = some a →
      ∃ b, lookupBlk c5St.heap a = some b ∧ 80 ≤ b.size)) := by
  refine ⟨⟨by norm_num, by norm_num⟩, ?_⟩
  apply c5_find_fit c5St 80 (by norm_num) (by norm_num)
  intro k hk a ha
  by_cases h6 : k = 6
  · subst h6
    have hfl : c5St.fl 6 = [0] := rfl
    rw [hfl] at ha
    rcases List.mem_singleton.mp ha with rfl
    exact ⟨⟨2096, true, 2096, true⟩, by decide, by decide, by norm_num⟩
  · have hfl : c5St.fl k = [] := by
      simp [c5St, h6]
    rw [hfl] at ha
    cases ha

end MM

namespace MM

/-! ## Claim C8 -/

/-- Claim C8: on a non-empty heap (any state after a successful init),
    malloc returns NULL exactly when the request is 0 or when the single
    mem_sbrk call it made failed, and in each of those cases the entire
    allocator state — heap blocks, free-list index and counter — is returned
    unchanged. -/
theorem c8_malloc_null (st : AllocSt) (ok : Bool) (n : Nat)
    (hne : st.heap ≠ []) :
    ((mm_malloc st ok n).ret = none ↔
      n = 0 ∨ (mm_malloc st ok n).sbrkFailed = true) ∧
    ((mm_malloc st ok n).ret = none → (mm_malloc st ok n).st = st) := by
  unfold mm_malloc
  by_cases h0 : n = 0
  · rw [if_pos h0]
    exact ⟨by simp [h0], fun _ => rfl⟩
  · rw [if_neg h0]
    dsimp only
    cases hf : find_fit_seg st (alloc_size n) with
    | some a =>
      try dsimp only
      refine ⟨by simp [h0], ?_⟩
      intro hc
      cases hc
    | none =>
      try dsimp only
      cases hl : st.heap.getLast? with
      | none => exact absurd (List.getLast?_eq_none_iff.mp hl) hne
      | some p =>
        obtain ⟨la, lb⟩ := p
        try dsimp only
        cases hext : extend_heap st ok
            (if lb.freed = true then alloc_size n - lb.size
             else cmax (alloc_size n) CHUNKSIZE) with
        | none =>
          try dsimp only
          exact ⟨by simp, fun _ => rfl⟩
        | some q =>
          obtain ⟨st2, na⟩ := q
          try dsimp only
          refine ⟨by simp [h0], ?_⟩
          intro hc
          cases hc

/-! ## Claim C9 -/

/-- Claim C9: when malloc misses in the index, the extend size it passes to
    the heap primitive is exactly asize - tail.size when the last block is
    free (and max(asize, 2048) when it is allocated), and on the free-tail
    path the coalesce inside extend_heap merges the fresh extension with the
    tail into exactly one free block of size exactly asize, replacing the
    tail in place: the resulting heap is the old heap with its last block
    replaced by a single free block of size asize with both tags free.
    The hypothesis tail.size <= asize in the free case is what invariant 5
    plus the miss guarantees in every reachable state (the Nat subtraction
    then coincides with the size_t subtraction of the code). -/
theorem c9_extend_size (st : AllocSt) (ok : Bool) (n la : Nat) (lb : Blk)
    (hla : st.heap.getLast? = some (la, lb))
    (hmiss : find_fit_seg st (alloc_size n) = none)
    (hn : n ≠ 0)
    (hsmall : lb.freed = true → lb.size ≤ alloc_size n) :
    (lb.freed = true →
      (mm_malloc st ok n).sbrkReq = some (alloc_size n - lb.size) ∧
      extend_heap st true (alloc_size n - lb.size) =
        some (⟨st.heap.dropLast ++
                 [(la, ⟨alloc_size n, true, alloc_size n, true⟩)],
               flCons (flErase st.fl (map_to_class lb.size) la)
                 (map_to_class (alloc_size n)) la,
               st.frees⟩, la)) ∧
    (lb.freed = false →
      (mm_malloc st ok n).sbrkReq = some (cmax (alloc_size n) CHUNKSIZE)) := by
  constructor
  · intro hfree
    constructor
    · unfold mm_malloc
      rw [if_neg hn]
      dsimp only
      rw [hmiss, hla]
      try dsimp only
      rw [if_pos hfree]
      cases extend_heap st ok (alloc_size n - lb.size) with
      | none => rfl
      | some q =>
        obtain ⟨st2, na⟩ := q
        rfl
    · have hsz : lb.size + (alloc_size n - lb.size) = alloc_size n := by
        have := hsmall hfree
        omega
      unfold extend_heap coalesce
      rw [hla]
      simp only [hfree, List.head?_nil, if_pos, Bool.false_eq_true, if_false,
        del_fl_seg, add_fl_seg, hsz]
      have hfr : st.frees - 1 + 1 = st.frees := by omega
      rw [hfr]
      rfl
  · intro hfree
    have hcond : ¬(lb.freed = true) := by
      rw [hfree]
      exact Bool.false_ne_true
    unfold mm_malloc
    rw [if_neg hn]
    dsimp only
    rw [hmiss, hla]
    try dsimp only
    rw [if_neg hcond]
    cases extend_heap st ok (cmax (alloc_size n) CHUNKSIZE) with
    | none => rfl
    | some q =>
      obtain ⟨st2, na⟩ := q
      rfl

end MM

namespace MM

/-- Witness state for C8: the heap after a successful init. -/
def c8St : AllocSt :=
  ⟨[(0, ⟨2096, true, 2096, true⟩)], (fun k => if k = 6 then [0] else []), 1⟩

theorem c8_witness :
    c8St.heap ≠ [] ∧
    (((mm_malloc c8St false 4000).ret = none ↔
      4000 = 0 ∨ (mm_malloc c8St false 4000).sbrkFailed = true) ∧
     ((mm_malloc c8St false 4000).ret = none →
       (mm_malloc c8St false 4000).st = c8St)) :=
  ⟨by decide, c8_malloc_null c8St false 4000 (by decide)⟩

/-- Witness state for C9: an allocated block followed by a free tail of
    size 48, registered in bucket 0. -/
def c9St : AllocSt :=
  ⟨[(0, ⟨64, false, 64, false⟩), (64, ⟨48, true, 48, true⟩)],
    (fun k => if k = 0 then [64] else []), 1⟩

theorem c9_witness :
    (c9St.heap.getLast? = some (64, ⟨48, true, 48, true⟩) ∧
      find_fit_seg c9St (alloc_size 2048) = none ∧
      (2048 : Nat) ≠ 0 ∧
      ((⟨48, true, 48, true⟩ : Blk).freed = true →
        (⟨48, true, 48, true⟩ : Blk).size ≤ alloc_size 2048)) ∧
    (((⟨48, true, 48, true⟩ : Blk).freed = true →
      (mm_malloc c9St true 2048).sbrkReq =
        some (alloc_size 2048 - (⟨48, true, 48, true⟩ : Blk).size) ∧
      extend_heap c9St true
          (alloc_size 2048 - (⟨48, true, 48, true⟩ : Blk).size) =
        some (⟨c9St.heap.dropLast ++
                 [(64, ⟨alloc_size 2048, true, alloc_size 2048, true⟩)],
               flCons (flErase c9St.fl
                   (map_to_class (⟨48, true, 48, true⟩ : Blk).size) 64)
                 (map_to_class (alloc_size 2048)) 64,
               c9St.frees⟩, 64)) ∧
    ((⟨48, true, 48, true⟩ : Blk).freed = false →
      (mm_malloc c9St true 2048).sbrkReq =
        some (cmax (alloc_size 2048) CHUNKSIZE))) :=
  ⟨⟨by decide, by decide, by decide, by decide⟩,
    c9_extend_size c9St true 2048 64 ⟨48, true, 48, true⟩ (by decide)
      (by decide) (by decide) (by decide)⟩

end MM

namespace MM

/-! ## Sum-over-buckets machinery -/

/-- Updating a function at one index of a duplicate-free index list moves
    the sum by the difference at that index. -/
theorem sum_map_add_single (l : List Int) (F G : Int → Nat) (k : Int)
    (d : Nat) (hnd : l.Nodup) (hk : k ∈ l)
    (hoff : ∀ j ∈ l, j ≠ k → F j = G j) (hkk : F k = G k + d) :
    (l.map F).sum = (l.map G).sum + d := by
  induction l with
  | nil => cases hk
  | cons x xs ih =>
    simp only [List.map_cons, List.sum_cons]
    rcases List.mem_cons.mp hk with rfl | hx
    · have hxs : ∀ j ∈ xs, F j = G j := by
        intro j hj
        refine hoff j (List.mem_cons_of_mem _ hj) ?_
        rintro rfl
        exact (List.nodup_cons.mp hnd).1 hj
      rw [List.map_congr_left hxs, hkk]
      omega
    · have hxk : x ≠ k := by
        rintro rfl
        exact (List.nodup_cons.mp hnd).1 hx
      rw [hoff x (List.mem_cons_self _ _) hxk,
        ih (List.nodup_cons.mp hnd).2 hx
          (fun j hj hjk => hoff j (List.mem_cons_of_mem _ hj) hjk)]
      omega

theorem intRange16_nodup : (intRange 0 (CLASSNUM : Int)).Nodup := by decide

theorem mem_intRange16 {k : Int} (h0 : 0 ≤ k) (h15 : k ≤ 15) :
    k ∈ intRange 0 (CLASSNUM : Int) := by
  rw [mem_intRange]
  unfold CLASSNUM
  omega

theorem countFL_flCons (fl : Int → List Nat) (k : Int) (a x : Nat)
    (h0 : 0 ≤ k) (h15 : k ≤ 15) :
    countFL (flCons fl k a) x = countFL fl x + (if x = a then 1 else 0) := by
  unfold countFL
  apply sum_map_add_single _ _ _ k _ intRange16_nodup (mem_intRange16 h0 h15)
  · intro j hj hjk
    unfold flCons
    rw [if_neg hjk]
  · unfold flCons
    rw [if_pos rfl]
    by_cases hxa : x = a
    · subst hxa
      simp [List.count_cons]
    · simp [List.count_cons, hxa, Ne.symm hxa]

theorem countFL_flErase (fl : Int → List Nat) (k : Int) (a x : Nat)
    (h0 : 0 ≤ k) (h15 : k ≤ 15) (ha : a ∈ fl k) :
    countFL (flErase fl k a) x + (if x = a then 1 else 0) = countFL fl x := by
  unfold countFL
  rw [sum_map_add_single (intRange 0 (CLASSNUM : Int))
    (fun j => (fl j).count x)
    (fun j => ((flErase fl k a) j).count x) k (if x = a then 1 else 0)
    intRange16_nodup (mem_intRange16 h0 h15) ?_ ?_]
  · intro j hj hjk
    dsimp only
    unfold flErase
    rw [if_neg hjk]
  · dsimp only
    unfold flErase
    rw [if_pos rfl]
    by_cases hxa : x = a
    · subst hxa
      rw [if_pos rfl, List.count_erase_self]
      have hpos : 0 < (fl k).count x := List.count_pos_iff.mpr ha
      omega
    · rw [if_neg hxa, List.count_erase_of_ne hxa]
      omega

theorem totalFL_flCons (fl : Int → List Nat) (k : Int) (a : Nat)
    (h0 : 0 ≤ k) (h15 : k ≤ 15) :
    totalFL (flCons fl k a) = totalFL fl + 1 := by
  unfold totalFL
  apply sum_map_add_single _ _ _ k _ intRange16_nodup (mem_intRange16 h0 h15)
  · intro j hj hjk
    unfold flCons
    rw [if_neg hjk]
  · unfold flCons
    rw [if_pos rfl]
    rfl

theorem totalFL_flErase (fl : Int → List Nat) (k : Int) (a : Nat)
    (h0 : 0 ≤ k) (h15 : k ≤ 15) (ha : a ∈ fl k) :
    totalFL (flErase fl k a) + 1 = totalFL fl := by
  unfold totalFL
  rw [sum_map_add_single (intRange 0 (CLASSNUM : Int))
    (fun j => (fl j).length)
    (fun j => ((flErase fl k a) j).length) k 1
    intRange16_nodup (mem_intRange16 h0 h15) ?_ ?_]
  · intro j hj hjk
    dsimp only
    unfold flErase
    rw [if_neg hjk]
  · dsimp only
    unfold flErase
    rw [if_pos rfl]
    rw [List.length_erase_of_mem ha]
    have hpos : 0 < (fl k).length := List.length_pos.mpr (by
      intro hnil
      rw [hnil] at ha
      cases ha)
    omega

/-- Only a single nonzero bucket: the total count across the index is 1. -/
theorem countFL_eq_one (fl : Int → List Nat) (x : Nat) (k : Int)
    (h0 : 0 ≤ k) (h15 : k ≤ 15) (h1 : (fl k).count x = 1)
    (hrest : ∀ j ∈ intRange 0 (CLASSNUM : Int), j ≠ k →
      (fl j).count x = 0) :
    countFL fl x = 1 := by
  unfold countFL
  rw [sum_map_add_single (intRange 0 (CLASSNUM : Int))
    (fun j => (fl j).count x) (fun _ => 0) k 1
    intRange16_nodup (mem_intRange16 h0 h15)
    (fun j hj hjk => hrest j hj hjk) (by dsimp only; omega)]
  simp

/-! ## Heap-shape lemmas -/

theorem heap_zipper_eq (h : List (Nat × Blk)) (a : Nat)
    (pre : List (Nat × Blk)) (b : Blk) (post : List (Nat × Blk))
    (hz : heap_zipper h a = some (pre, b, post)) :
    h = pre ++ (a, b) :: post := by
  induction h generalizing pre b post with
  | nil => cases hz
  | cons p rest ih =>
    unfold heap_zipper at hz
    by_cases hp : p.1 = a
    · rw [if_pos hp] at hz
      cases hz
      rw [List.nil_append, ← hp]
    · rw [if_neg hp] at hz
      cases hq : heap_zipper rest a with
      | none =>
        rw [hq] at hz
        cases hz
      | some q =>
        obtain ⟨q1, q2, q3⟩ := q
        rw [hq] at hz
        rw [Option.map_some'] at hz
        cases hz
        rw [List.cons_append]
        rw [← ih q1 q2 q3 hq]

theorem lookupBlk_append (xs ys : List (Nat × Blk)) (a : Nat) (c : Blk)
    (hx : a ∉ xs.map Prod.fst) :
    lookupBlk (xs ++ (a, c) :: ys) a = some c := by
  unfold lookupBlk
  rw [List.find?_append]
  have h1 : xs.find? (fun p => p.1 = a) = none := by
    rw [List.find?_eq_none]
    intro p hp
    simp only [decide_eq_true_eq]
    intro hpa
    exact hx (List.mem_map.mpr ⟨p, hp, hpa⟩)
  rw [h1]
  have h2 : ((a, c) :: ys).find? (fun p => p.1 = a) = some (a, c) :=
    List.find?_cons_of_pos _ (by simp)
  rw [Option.none_or, h2]
  rfl

theorem size_le_heapSize (h : List (Nat × Blk)) (p : Nat × Blk) (hp : p ∈ h) :
    p.2.size ≤ heapSize h := by
  unfold heapSize
  induction h with
  | nil => cases hp
  | cons q rest ih =>
    simp only [List.map_cons, List.sum_cons]
    rcases List.mem_cons.mp hp with rfl | hp'
    · omega
    · have := ih hp'
      omega

theorem heapSize_append_cons (xs ys : List (Nat × Blk)) (y : Nat × Blk) :
    heapSize (xs ++ y :: ys) = heapSize xs + y.2.size + heapSize ys := by
  unfold heapSize
  rw [List.map_append, List.sum_append, List.map_cons, List.sum_cons]
  omega

/-- Assembling a heap whose inserted middle block has no free neighbour
    preserves the no-adjacent-free invariant. -/
theorem noAdjFree_build (pre0 post0 : List (Nat × Blk)) (y : Nat × Blk)
    (hpre : noAdjFree pre0) (hpost : noAdjFree post0)
    (hprev : ∀ p ∈ pre0.getLast?, p.2.freed = true → False)
    (hnext : ∀ p ∈ post0.head?, p.2.freed = true → False) :
    noAdjFree (pre0 ++ y :: post0) := by
  unfold noAdjFree at *
  rw [List.chain'_append]
  refine ⟨hpre, ?_, ?_⟩
  · rw [List.chain'_cons']
    exact ⟨fun z hz hc => hnext z hz hc.2, hpost⟩
  · intro p hp z hz
    intro hc
    exact hprev p hp hc.1

end MM

namespace MM

/-! ## Coalesce case equations -/

theorem coalesce_eq1 (fl0 : Int → List Nat) (frees0 : Int)
    (pre : List (Nat × Blk)) (a : Nat) (b : Blk) (post : List (Nat × Blk))
    (hp : (match pre.getLast? with
           | some p => p.2.freed
           | none => false) = false)
    (hn : (match post.head? with
           | some p => p.2.freed
           | none => false) = false) :
    coalesce fl0 frees0 pre a b post =
      (⟨pre ++ (a, b) :: post, flCons fl0 (map_to_class b.size) a,
        frees0 + 1⟩, a) := by
  unfold coalesce
  dsimp only
  rw [hp, hn]
  rw [if_neg Bool.false_ne_true]
  rw [if_neg Bool.false_ne_true]
  rfl

theorem coalesce_eq2 (fl0 : Int → List Nat) (frees0 : Int)
    (pre : List (Nat × Blk)) (a : Nat) (b : Blk) (post : List (Nat × Blk))
    (pa : Nat) (pb : Blk)
    (hpl : pre.getLast? = some (pa, pb)) (hpf : pb.freed = true)
    (hn : (match post.head? with
           | some p => p.2.freed
           | none => false) = false) :
    coalesce fl0 frees0 pre a b post =
      (⟨pre.dropLast ++ (pa, set_free (set_size pb (pb.size + b.size)) true)
          :: post,
        flCons (flErase fl0 (map_to_class pb.size) pa)
          (map_to_class (pb.size + b.size)) pa,
        frees0 - 1 + 1⟩, pa) := by
  unfold coalesce
  dsimp only
  rw [hpl, hn]
  dsimp only
  rw [hpf]
  rw [if_pos rfl]
  rw [if_neg Bool.false_ne_true]
  rfl

theorem coalesce_eq3 (fl0 : Int → List Nat) (frees0 : Int)
    (pre : List (Nat × Blk)) (a : Nat) (b : Blk) (post : List (Nat × Blk))
    (na : Nat) (nb : Blk)
    (hph : post.head? = some (na, nb)) (hnf : nb.freed = true)
    (hp : (match pre.getLast? with
           | some p => p.2.freed
           | none => false) = false) :
    coalesce fl0 frees0 pre a b post =
      (⟨pre ++ (a, set_free (set_size b (b.size + nb.size)) true)
          :: post.tail,
        flCons (flErase fl0 (map_to_class nb.size) na)
          (map_to_class (b.size + nb.size)) a,
        frees0 - 1 + 1⟩, a) := by
  unfold coalesce
  dsimp only
  rw [hph, hp]
  dsimp only
  rw [hnf]
  rw [if_neg Bool.false_ne_true]
  rw [if_pos rfl]
  rfl

theorem coalesce_eq4 (fl0 : Int → List Nat) (frees0 : Int)
    (pre : List (Nat × Blk)) (a : Nat) (b : Blk) (post : List (Nat × Blk))
    (pa na : Nat) (pb nb : Blk)
    (hpl : pre.getLast? = some (pa, pb)) (hpf : pb.freed = true)
    (hph : post.head? = some (na, nb)) (hnf : nb.freed = true) :
    coalesce fl0 frees0 pre a b post =
      (⟨pre.dropLast ++
          (pa, set_free (set_size pb (pb.size + b.size + nb.size)) true)
          :: post.tail,
        flCons (flErase (flErase fl0 (map_to_class nb.size) na)
            (map_to_class pb.size) pa)
          (map_to_class (pb.size + b.size + nb.size)) pa,
        frees0 - 1 - 1 + 1⟩, pa) := by
  unfold coalesce
  dsimp only
  rw [hpl, hph]
  dsimp only
  rw [hpf, hnf]
  rw [if_pos rfl]
  rw [if_pos (by simp)]
  rfl

end MM

namespace MM

/-- The contribution of a neighbour to a merged size: its size when it is
    free, 0 otherwise. -/
def freeContrib (o : Option (Nat × Blk)) : Nat :=
  match o with
  | some p => if p.2.freed = true then p.2.size else 0
  | none => 0

/-- Membership in a bucket survives erasing a different address. -/
theorem mem_flErase_of_ne (fl : Int → List Nat) (k j : Int) (x y : Nat)
    (hx : x ∈ fl j) (hxy : x ≠ y) : x ∈ (flErase fl k y) j := by
  unfold flErase
  by_cases hj : j = k
  · subst hj
    rw [if_pos rfl]
    exact (List.mem_erase_of_ne hxy).mpr hx
  · rw [if_neg hj]
    exact hx


theorem not_free_opt (o : Option (Nat × Blk))
    (h : (match o with | some p => p.2.freed | none => false) = false) :
    ∀ p ∈ o, p.2.freed = true → False := by
  intro p hp hf
  cases o with
  | none => cases hp
  | some q =>
    rw [Option.mem_some_iff] at hp
    subst hp
    dsimp only at h
    rw [hf] at h
    cases h

theorem freeContrib_of_false (o : Option (Nat × Blk))
    (h : (match o with | some p => p.2.freed | none => false) = false) :
    freeContrib o = 0 := by
  cases o with
  | none => rfl
  | some q =>
    unfold freeContrib
    dsimp only at h ⊢
    rw [h]
    rfl

theorem freeContrib_of_free (o : Option (Nat × Blk)) (x : Nat × Blk)
    (ho : o = some x) (hf : x.2.freed = true) :
    freeContrib o = x.2.size := by
  subst ho
  unfold freeContrib
  dsimp only
  rw [hf]
  rfl

/-- Claim C7: freeing a valid allocated block through free (mark both tags
    free, then coalesce) restores the no-two-adjacent-free invariant, keeps
    the total number of heap bytes unchanged, and the surviving block
    returned by coalesce is free in both header and footer, has size equal
    to the sum of the sizes of the blocks it merged (the freed block plus
    each free neighbour), and its address occurs exactly once across the
    sixteen buckets.  Hypotheses are the spec invariants before the call:
    the heap splits at the freed block (pointer validity), the block is
    allocated, no two adjacent blocks are both free, block sizes are at
    least 32 bytes and the heap fits 64 bits, heap addresses are distinct,
    and the index is exact (each free block appears once, in the bucket of
    its class; allocated blocks appear nowhere). -/
theorem c7_free_coalesce (st : AllocSt) (pre post : List (Nat × Blk))
    (a : Nat) (b : Blk)
    (hz : heap_zipper st.heap a = some (pre, b, post))
    (hb : b.freed = false)
    (hchain : noAdjFree st.heap)
    (hmin : ∀ p ∈ st.heap, 32 ≤ p.2.size)
    (hsz : heapSize st.heap < 2 ^ 64)
    (hnd : (st.heap.map Prod.fst).Nodup)
    (hcnt : ∀ p ∈ st.heap,
      (p.2.freed = true →
        (st.fl (map_to_class p.2.size)).count p.1 = 1 ∧
        ∀ k ∈ intRange 0 (CLASSNUM : Int), k ≠ map_to_class p.2.size →
          (st.fl k).count p.1 = 0) ∧
      (p.2.freed = false → countFL st.fl p.1 = 0)) :
    mm_free st (a + HSIZE) =
      (coalesce st.fl st.frees pre a (set_free b true) post).1 ∧
    noAdjFree (coalesce st.fl st.frees pre a (set_free b true) post).1.heap ∧
    heapSize (coalesce st.fl st.frees pre a (set_free b true) post).1.heap
      = heapSize st.heap ∧
    (∃ mb, lookupBlk
        (coalesce st.fl st.frees pre a (set_free b true) post).1.heap
        (coalesce st.fl st.frees pre a (set_free b true) post).2 = some mb ∧
      mb.freed = true ∧ mb.ffreed = true ∧
      mb.size = freeContrib pre.getLast? + b.size + freeContrib post.head?) ∧
    countFL (coalesce st.fl st.frees pre a (set_free b true) post).1.fl
      (coalesce st.fl st.frees pre a (set_free b true) post).2 = 1 := by
  have hheap : st.heap = pre ++ (a, b) :: post := heap_zipper_eq _ _ _ _ _ hz
  have hfree_eq : mm_free st (a + HSIZE) =
      (coalesce st.fl st.frees pre a (set_free b true) post).1 := by
    unfold mm_free
    rw [if_neg (by unfold HSIZE; omega)]
    dsimp only
    have hsub : a + HSIZE - HSIZE = a := by omega
    rw [hsub, hz]
  have hmem_b : (a, b) ∈ st.heap := by
    rw [hheap]
    exact List.mem_append_right _ (List.mem_cons_self _ _)
  have hb32 : 32 ≤ b.size := hmin _ hmem_b
  have hb64 : b.size < 2 ^ 64 :=
    lt_of_le_of_lt (size_le_heapSize _ _ hmem_b) hsz
  have hcb : countFL st.fl a = 0 := ((hcnt _ hmem_b).2) hb
  have hsfb : (set_free b true).size = b.size := rfl
  have hchain2 : List.Chain'
      (fun p q : Nat × Blk => ¬(p.2.freed = true ∧ q.2.freed = true))
      (pre ++ (a, b) :: post) := by
    have hx := hchain
    unfold noAdjFree at hx
    rwa [hheap] at hx
  obtain ⟨hcpre, hcmid, hcbnd⟩ := List.chain'_append.mp hchain2
  have hcpost : List.Chain'
      (fun p q : Nat × Blk => ¬(p.2.freed = true ∧ q.2.freed = true)) post :=
    (List.chain'_cons'.mp hcmid).2
  have hnd2 : (pre.map Prod.fst ++ a :: post.map Prod.fst).Nodup := by
    have hx := hnd
    rw [hheap] at hx
    simpa using hx
  have hnd3 := List.nodup_cons.mp (List.nodup_middle.mp hnd2)
  have hanotpre : a ∉ pre.map Prod.fst := by
    intro hc
    exact hnd3.1 (List.mem_append_left _ hc)
  have hszdecomp : heapSize st.heap =
      heapSize pre + b.size + heapSize post := by
    rw [hheap, heapSize_append_cons]
  refine ⟨hfree_eq, ?_⟩
  cases hPF : (match pre.getLast? with
      | some p => p.2.freed
      | none => false) with
  | false =>
    have hprev := not_free_opt _ hPF
    cases hNF : (match post.head? with
        | some p => p.2.freed
        | none => false) with
    | false =>
      -- case 1: no free neighbour
      have hnext := not_free_opt _ hNF
      rw [coalesce_eq1 st.fl st.frees pre a (set_free b true) post hPF hNF]
      dsimp only
      refine ⟨?_, ?_, ?_, ?_⟩
      · exact noAdjFree_build pre post _ hcpre hcpost hprev hnext
      · rw [heapSize_append_cons, hszdecomp]
        dsimp only
        rw [hsfb]
      · refine ⟨set_free b true, lookupBlk_append _ _ _ _ hanotpre, rfl, rfl,
          ?_⟩
        rw [freeContrib_of_false _ hPF, freeContrib_of_false _ hNF, hsfb]
        omega
      · rw [countFL_flCons st.fl (map_to_class (set_free b true).size) a a
          (by rw [hsfb]; exact map_to_class_nonneg hb32 hb64)
          (map_to_class_le_15 _)]
        rw [hcb]
        simp
    | true =>
      -- case 3: merge with the free next block
      obtain ⟨na, nb, post', hpost, hnf⟩ :
          ∃ na nb post', post = (na, nb) :: post' ∧ nb.freed = true := by
        cases post with
        | nil => simp at hNF
        | cons q post' =>
          rw [List.head?_cons] at hNF
          exact ⟨q.1, q.2, post', rfl, hNF⟩
      subst hpost
      have hmem_n : (na, nb) ∈ st.heap := by
        rw [hheap]
        exact List.mem_append_right _
          (List.mem_cons_of_mem _ (List.mem_cons_self _ _))
      have hn32 : 32 ≤ nb.size := hmin _ hmem_n
      have hn64 : nb.size < 2 ^ 64 :=
        lt_of_le_of_lt (size_le_heapSize _ _ hmem_n) hsz
      have hnb1 : (st.fl (map_to_class nb.size)).count na = 1 :=
        (((hcnt _ hmem_n).1) hnf).1
      have hnbmem : na ∈ st.fl (map_to_class nb.size) :=
        List.count_pos_iff.mp (by omega)
      have hane : a ≠ na := by
        intro hc
        subst hc
        exact hnd3.1 (List.mem_append_right _ (by simp))
      have hszpost : heapSize ((na, nb) :: post') =
          nb.size + heapSize post' := by
        unfold heapSize
        rw [List.map_cons, List.sum_cons]
      rw [coalesce_eq3 st.fl st.frees pre a (set_free b true)
        ((na, nb) :: post') na nb (by rw [List.head?_cons]) hnf hPF]
      dsimp only
      simp only [List.tail_cons]
      refine ⟨?_, ?_, ?_, ?_⟩
      · refine noAdjFree_build pre post' _ hcpre
          ((List.chain'_cons'.mp hcpost).2) (not_free_opt _ hPF) ?_
        intro p hp hpf
        exact (List.chain'_cons'.mp hcpost).1 p hp ⟨hnf, hpf⟩
      · rw [heapSize_append_cons, hszdecomp, hszpost]
        simp only [set_free, set_size]
        omega
      · refine ⟨_, lookupBlk_append _ _ _ _ hanotpre, rfl, rfl, ?_⟩
        rw [freeContrib_of_false _ hPF,
          freeContrib_of_free _ (na, nb) (by rw [List.head?_cons]) hnf]
        simp only [set_free, set_size]
        omega
      · have hcls0 : 0 ≤ map_to_class ((set_free b true).size + nb.size) :=
          map_to_class_nonneg (by rw [hsfb]; omega) (by rw [hsfb]; omega)
        rw [countFL_flCons _ _ _ _ hcls0 (map_to_class_le_15 _)]
        have herase := countFL_flErase st.fl (map_to_class nb.size) na a
          (map_to_class_nonneg hn32 hn64) (map_to_class_le_15 _) hnbmem
        rw [if_neg hane] at herase
        have hite : (if a = a then 1 else 0) = 1 := if_pos rfl
        rw [hite]
        omega
  | true =>
    -- the previous block exists and is free
    obtain ⟨pa, pb, hpl, hpf⟩ :
        ∃ pa pb, pre.getLast? = some (pa, pb) ∧ pb.freed = true := by
      cases hq : pre.getLast? with
      | none =>
        rw [hq] at hPF
        simp at hPF
      | some p =>
        rw [hq] at hPF
        exact ⟨p.1, p.2, rfl, hPF⟩
    have hpre_eq : pre.dropLast ++ [(pa, pb)] = pre :=
      List.dropLast_append_getLast? _ (Option.mem_def.mpr hpl)
    have hmem_p : (pa, pb) ∈ st.heap := by
      rw [hheap]
      exact List.mem_append_left _ (List.mem_of_getLast?_eq_some hpl)
    have hp32 : 32 ≤ pb.size := hmin _ hmem_p
    have hp64 : pb.size < 2 ^ 64 :=
      lt_of_le_of_lt (size_le_heapSize _ _ hmem_p) hsz
    have hpb1 : (st.fl (map_to_class pb.size)).count pa = 1 :=
      (((hcnt _ hmem_p).1) hpf).1
    have hpbmem : pa ∈ st.fl (map_to_class pb.size) :=
      List.count_pos_iff.mp (by omega)
    have hcpre2 : List.Chain'
        (fun p q : Nat × Blk => ¬(p.2.freed = true ∧ q.2.freed = true))
        (pre.dropLast ++ [(pa, pb)]) := by
      rw [hpre_eq]
      exact hcpre
    obtain ⟨hcpre', hsing, hbnd'⟩ := List.chain'_append.mp hcpre2
    have hprev' : ∀ p ∈ pre.dropLast.getLast?, p.2.freed = true → False := by
      intro p hp hpfree
      exact hbnd' p hp (pa, pb) rfl ⟨hpfree, hpf⟩
    have hndpre : (pre.map Prod.fst).Nodup :=
      (List.nodup_append.mp hnd3.2).1
    have hpanotpre : pa ∉ pre.dropLast.map Prod.fst := by
      have hx : pre.map Prod.fst =
          pre.dropLast.map Prod.fst ++ pa :: [] := by
        conv_lhs => rw [← hpre_eq]
        simp
      rw [hx] at hndpre
      have hy := (List.nodup_cons.mp (List.nodup_middle.mp hndpre)).1
      intro hc
      exact hy (List.mem_append_left _ hc)
    have hszpre : heapSize pre = heapSize pre.dropLast + pb.size := by
      conv_lhs => rw [← hpre_eq]
      rw [heapSize_append_cons]
      dsimp only
      have hz0 : heapSize ([] : List (Nat × Blk)) = 0 := rfl
      omega
    have hcntpa : countFL st.fl pa = 1 :=
      countFL_eq_one st.fl pa (map_to_class pb.size)
        (map_to_class_nonneg hp32 hp64) (map_to_class_le_15 _) hpb1
        (((hcnt _ hmem_p).1) hpf).2
    cases hNF : (match post.head? with
        | some p => p.2.freed
        | none => false) with
    | false =>
      -- case 2: merge with the free previous block
      have hnext := not_free_opt _ hNF
      rw [coalesce_eq2 st.fl st.frees pre a (set_free b true) post pa pb hpl
        hpf hNF]
      dsimp only
      refine ⟨?_, ?_, ?_, ?_⟩
      · exact noAdjFree_build pre.dropLast post _ hcpre' hcpost hprev' hnext
      · rw [heapSize_append_cons, hszdecomp, hszpre]
        simp only [set_free, set_size]
        omega
      · refine ⟨_, lookupBlk_append _ _ _ _ hpanotpre, rfl, rfl, ?_⟩
        rw [freeContrib_of_false _ hNF,
          freeContrib_of_free _ (pa, pb) hpl hpf]
        simp only [set_free, set_size]
        omega
      · have hcls0 : 0 ≤ map_to_class (pb.size + (set_free b true).size) :=
          map_to_class_nonneg (by rw [hsfb]; omega) (by rw [hsfb]; omega)
        rw [countFL_flCons _ _ _ _ hcls0 (map_to_class_le_15 _)]
        have herase := countFL_flErase st.fl (map_to_class pb.size) pa pa
          (map_to_class_nonneg hp32 hp64) (map_to_class_le_15 _) hpbmem
        rw [if_pos rfl] at herase
        have hite : (if pa = pa then 1 else 0) = 1 := if_pos rfl
        rw [hite]
        omega
    | true =>
      -- case 4: merge with both free neighbours
      obtain ⟨na, nb, post', hpost, hnf⟩ :
          ∃ na nb post', post = (na, nb) :: post' ∧ nb.freed = true := by
        cases post with
        | nil => simp at hNF
        | cons q post' =>
          rw [List.head?_cons] at hNF
          exact ⟨q.1, q.2, post', rfl, hNF⟩
      subst hpost
      have hmem_n : (na, nb) ∈ st.heap := by
        rw [hheap]
        exact List.mem_append_right _
          (List.mem_cons_of_mem _ (List.mem_cons_self _ _))
      have hn32 : 32 ≤ nb.size := hmin _ hmem_n
      have hn64 : nb.size < 2 ^ 64 :=
        lt_of_le_of_lt (size_le_heapSize _ _ hmem_n) hsz
      have hnb1 : (st.fl (map_to_class nb.size)).count na = 1 :=
        (((hcnt _ hmem_n).1) hnf).1
      have hnbmem : na ∈ st.fl (map_to_class nb.size) :=
        List.count_pos_iff.mp (by omega)
      have hpane : pa ≠ na := by
        intro hc
        subst hc
        have hdisj := (List.nodup_append.mp hnd3.2).2.2
        have hx : pa ∈ pre.map Prod.fst := by
          rw [← hpre_eq]
          simp
        exact hdisj hx (by simp)
      have hszpost : heapSize ((na, nb) :: post') =
          nb.size + heapSize post' := by
        unfold heapSize
        rw [List.map_cons, List.sum_cons]
      rw [coalesce_eq4 st.fl st.frees pre a (set_free b true)
        ((na, nb) :: post') pa na pb nb hpl hpf (by rw [List.head?_cons])
        hnf]
      dsimp only
      simp only [List.tail_cons]
      refine ⟨?_, ?_, ?_, ?_⟩
      · refine noAdjFree_build pre.dropLast post' _ hcpre'
          ((List.chain'_cons'.mp hcpost).2) hprev' ?_
        intro p hp hpfree
        exact (List.chain'_cons'.mp hcpost).1 p hp ⟨hnf, hpfree⟩
      · rw [heapSize_append_cons, hszdecomp, hszpre, hszpost]
        simp only [set_free, set_size]
        omega
      · refine ⟨_, lookupBlk_append _ _ _ _ hpanotpre, rfl, rfl, ?_⟩
        rw [freeContrib_of_free _ (pa, pb) hpl hpf,
          freeContrib_of_free _ (na, nb) (by rw [List.head?_cons]) hnf]
        simp only [set_free, set_size]
      · have hcls0 : 0 ≤ map_to_class
            (pb.size + (set_free b true).size + nb.size) :=
          map_to_class_nonneg (by rw [hsfb]; omega) (by rw [hsfb]; omega)
        rw [countFL_flCons _ _ _ _ hcls0 (map_to_class_le_15 _)]
        have herase1 := countFL_flErase st.fl (map_to_class nb.size) na pa
          (map_to_class_nonneg hn32 hn64) (map_to_class_le_15 _) hnbmem
        rw [if_neg hpane] at herase1
        have hpmem1 : pa ∈
            (flErase st.fl (map_to_class nb.size) na) (map_to_class pb.size)
          := mem_flErase_of_ne st.fl (map_to_class nb.size)
            (map_to_class pb.size) pa na hpbmem hpane
        have herase2 := countFL_flErase
          (flErase st.fl (map_to_class nb.size) na) (map_to_class pb.size)
          pa pa (map_to_class_nonneg hp32 hp64) (map_to_class_le_15 _)
          hpmem1
        rw [if_pos rfl] at herase2
        have hite : (if pa = pa then 1 else 0) = 1 := if_pos rfl
        rw [hite]
        omega

end MM

namespace MM

/-- Witness state for C7: two allocated 64-byte blocks; the first is freed. -/
def c7St : AllocSt :=
  ⟨[(0, ⟨64, false, 64, false⟩), (64, ⟨64, false, 64, false⟩)],
    (fun _ => []), 0⟩

theorem c7_witness :
    (heap_zipper c7St.heap 0 =
        some ([], ⟨64, false, 64, false⟩, [(64, ⟨64, false, 64, false⟩)]) ∧
      (⟨64, false, 64, false⟩ : Blk).freed = false ∧
      noAdjFree c7St.heap ∧
      (∀ p ∈ c7St.heap, 32 ≤ p.2.size) ∧
      heapSize c7St.heap < 2 ^ 64 ∧
      (c7St.heap.map Prod.fst).Nodup ∧
      (∀ p ∈ c7St.heap,
        (p.2.freed = true →
          (c7St.fl (map_to_class p.2.size)).count p.1 = 1 ∧
          ∀ k ∈ intRange 0 (CLASSNUM : Int), k ≠ map_to_class p.2.size →
            (c7St.fl k).count p.1 = 0) ∧
        (p.2.freed = false → countFL c7St.fl p.1 = 0))) ∧
    (mm_free c7St (0 + HSIZE) =
      (coalesce c7St.fl c7St.frees [] 0
        (set_free ⟨64, false, 64, false⟩ true)
        [(64, ⟨64, false, 64, false⟩)]).1 ∧
    noAdjFree (coalesce c7St.fl c7St.frees [] 0
        (set_free ⟨64, false, 64, false⟩ true)
        [(64, ⟨64, false, 64, false⟩)]).1.heap ∧
    heapSize (coalesce c7St.fl c7St.frees [] 0
        (set_free ⟨64, false, 64, false⟩ true)
        [(64, ⟨64, false, 64, false⟩)]).1.heap = heapSize c7St.heap ∧
    (∃ mb, lookupBlk
        (coalesce c7St.fl c7St.frees [] 0
          (set_free ⟨64, false, 64, false⟩ true)
          [(64, ⟨64, false, 64, false⟩)]).1.heap
        (coalesce c7St.fl c7St.frees [] 0
          (set_free ⟨64, false, 64, false⟩ true)
          [(64, ⟨64, false, 64, false⟩)]).2 = some mb ∧
      mb.freed = true ∧ mb.ffreed = true ∧
      mb.size = freeContrib ([] : List (Nat × Blk)).getLast? +
        (⟨64, false, 64, false⟩ : Blk).size +
        freeContrib [(64, (⟨64, false, 64, false⟩ : Blk))].head?) ∧
    countFL (coalesce c7St.fl c7St.frees [] 0
        (set_free ⟨64, false, 64, false⟩ true)
        [(64, ⟨64, false, 64, false⟩)]).1.fl
      (coalesce c7St.fl c7St.frees [] 0
        (set_free ⟨64, false, 64, false⟩ true)
        [(64, ⟨64, false, 64, false⟩)]).2 = 1) := by
  have hz : heap_zipper c7St.heap 0 =
      some ([], ⟨64, false, 64, false⟩, [(64, ⟨64, false, 64, false⟩)]) := by
    decide
  have hb : (⟨64, false, 64, false⟩ : Blk).freed = false := rfl
  have hch : noAdjFree c7St.heap := by
    unfold noAdjFree c7St
    exact List.chain'_cons.mpr ⟨by decide, List.chain'_singleton _⟩
  have hmin : ∀ p ∈ c7St.heap, 32 ≤ p.2.size := by decide
  have hsz : heapSize c7St.heap < 2 ^ 64 := by decide
  have hnd : (c7St.heap.map Prod.fst).Nodup := by decide
  have hcnt : ∀ p ∈ c7St.heap,
      (p.2.freed = true →
        (c7St.fl (map_to_class p.2.size)).count p.1 = 1 ∧
        ∀ k ∈ intRange 0 (CLASSNUM : Int), k ≠ map_to_class p.2.size →
          (c7St.fl k).count p.1 = 0) ∧
      (p.2.freed = false → countFL c7St.fl p.1 = 0) := by
    decide
  exact ⟨⟨hz, hb, hch, hmin, hsz, hnd, hcnt⟩,
    c7_free_coalesce c7St [] [(64, ⟨64, false, 64, false⟩)] 0
      ⟨64, false, 64, false⟩ hz hb hch hmin hsz hnd hcnt⟩

end MM

namespace MM

theorem lookupBlk_mem (h : List (Nat × Blk)) (a : Nat) (c : Blk)
    (hc : lookupBlk h a = some c) : (a, c) ∈ h := by
  unfold lookupBlk at hc
  obtain ⟨q, hq, hq2⟩ := Option.map_eq_some'.mp hc
  have hmem := List.mem_of_find?_eq_some hq
  have hpred := List.find?_some hq
  have hq1 : q.1 = a := by
    simpa using hpred
  have : q = (a, c) := by
    rw [Prod.ext_iff]
    exact ⟨hq1, hq2⟩
  rwa [this] at hmem

theorem mem_flCons_self (fl : Int → List Nat) (k : Int) (a : Nat) :
    a ∈ (flCons fl k a) k := by
  unfold flCons
  rw [if_pos rfl]
  exact List.mem_cons_self _ _

theorem alloc_size_ge_64 (n : Nat) (hn : n ≠ 0) : 64 ≤ alloc_size n := by
  unfold alloc_size align HSIZE FSIZE ALIGNMENT
  omega

/-- The frees counter keeps matching the total bucket population through
    split_block: one deletion from the bucket holding the block, and in the
    split case one insertion of the carved remainder. -/
theorem split_block_counter (st : AllocSt) (a len : Nat) (c : Blk)
    (hc : lookupBlk st.heap a = some c)
    (hmem : a ∈ st.fl (map_to_class c.size))
    (h32 : 32 ≤ c.size) (h64 : c.size < 2 ^ 64)
    (hfr : st.frees = (totalFL st.fl : Int)) :
    (split_block st a len).frees =
      (totalFL (split_block st a len).fl : Int) := by
  unfold split_block
  rw [hc]
  dsimp only
  have he := totalFL_flErase st.fl (map_to_class c.size) a
    (map_to_class_nonneg h32 h64) (map_to_class_le_15 _) hmem
  by_cases hrem : c.size - len < HSIZE + FSIZE
  · rw [if_pos hrem]
    dsimp only [del_fl_seg]
    omega
  · rw [if_neg hrem]
    dsimp only [add_fl_seg, del_fl_seg]
    have h48 : 48 ≤ c.size - len := by
      unfold HSIZE FSIZE at hrem
      omega
    have hcons := totalFL_flCons (flErase st.fl (map_to_class c.size) a)
      (map_to_class (c.size - len)) (a + len)
      (map_to_class_nonneg (by omega) (by omega)) (map_to_class_le_15 _)
    omega

end MM

namespace MM

set_option maxHeartbeats 8000000 in
/-- Claim C10: in every execution path of malloc and free — the public
    operations built from split_block, coalesce and del_fl_seg — every
    free-list deletion targets a block whose size field still equals its
    size at insertion time (deletion precedes any resize), so each deletion
    removes exactly one bucket entry and each insertion adds exactly one,
    and the insertion/removal counter frees keeps matching the total number
    of blocks across the sixteen buckets.  Hypotheses are the index
    invariants between public calls: the counter matches, indexed addresses
    resolve to blocks of the matching class, free blocks are indexed under
    the class of their size, sizes are at least 32 bytes with the heap
    below 2^64, heap addresses are distinct and the fresh extension address
    is fresh. -/
theorem c10_frees_totalFL (st : AllocSt) (ok : Bool) (n ptr : Nat)
    (hfr : st.frees = (totalFL st.fl : Int))
    (hinv5 : ∀ k ∈ intRange 0 (CLASSNUM : Int), ∀ x ∈ st.fl k, ∃ c,
      lookupBlk st.heap x = some c ∧ map_to_class c.size = k)
    (hinv3 : ∀ p ∈ st.heap, p.2.freed = true →
      p.1 ∈ st.fl (map_to_class p.2.size))
    (hmin : ∀ p ∈ st.heap, 32 ≤ p.2.size)
    (hsz : heapSize st.heap < 2 ^ 64)
    (hnd : (st.heap.map Prod.fst).Nodup)
    (hend : heap_end st ∉ st.heap.map Prod.fst)
    (halloc : alloc_size n < 2 ^ 64) :
    (mm_malloc st ok n).st.frees =
      (totalFL (mm_malloc st ok n).st.fl : Int) ∧
    (mm_free st ptr).frees = (totalFL (mm_free st ptr).fl : Int) := by
  constructor
  · -- malloc
    unfold mm_malloc
    by_cases h0 : n = 0
    · rw [if_pos h0]
      exact hfr
    · rw [if_neg h0]
      dsimp only
      have h64n : 64 ≤ alloc_size n := alloc_size_ge_64 n h0
      cases hf : find_fit_seg st (alloc_size n) with
      | some a =>
        dsimp only
        unfold find_fit_seg at hf
        obtain ⟨k, hk, hfk⟩ := List.exists_of_findSome?_eq_some hf
        obtain ⟨haflk, c, hlook, hsize⟩ :=
          find_in_bucket_some st.heap (alloc_size n) (st.fl k) a hfk
        have hstart : 0 ≤ map_to_class (alloc_size n) :=
          map_to_class_nonneg (by omega) halloc
        have hk16 : k ∈ intRange 0 (CLASSNUM : Int) := by
          rw [mem_intRange] at hk ⊢
          exact ⟨by omega, hk.2⟩
        obtain ⟨c', hlook', hcls⟩ := hinv5 k hk16 a haflk
        rw [hlook] at hlook'
        cases hlook'
        have hmemc : a ∈ st.fl (map_to_class c.size) := by
          rw [hcls]
          exact haflk
        have hmemheap : (a, c) ∈ st.heap := lookupBlk_mem _ _ _ hlook
        exact split_block_counter st a (alloc_size n) c hlook hmemc
          (hmin _ hmemheap)
          (lt_of_le_of_lt (size_le_heapSize _ _ hmemheap) hsz) hfr
      | none =>
        cases hl : st.heap.getLast? with
        | none =>
          dsimp only
          exact hfr
        | some p =>
          obtain ⟨la, lb⟩ := p
          dsimp only
          have hmem_l : (la, lb) ∈ st.heap := List.mem_of_getLast?_eq_some hl
          have hl32 : 32 ≤ lb.size := hmin _ hmem_l
          have hl64 : lb.size < 2 ^ 64 :=
            lt_of_le_of_lt (size_le_heapSize _ _ hmem_l) hsz
          have hheap_eq : st.heap.dropLast ++ [(la, lb)] = st.heap :=
            List.dropLast_append_getLast? _ (Option.mem_def.mpr hl)
          have hlanotpre : la ∉ st.heap.dropLast.map Prod.fst := by
            have hx : st.heap.map Prod.fst =
                st.heap.dropLast.map Prod.fst ++ la :: [] := by
              conv_lhs => rw [← hheap_eq]
              simp
            have hnd4 := hnd
            rw [hx] at hnd4
            have hy := (List.nodup_cons.mp (List.nodup_middle.mp hnd4)).1
            intro hc
            exact hy (List.mem_append_left _ hc)
          cases hok : ok with
          | false =>
            have hext : extend_heap st false
                (if lb.freed = true then alloc_size n - lb.size
                 else cmax (alloc_size n) CHUNKSIZE) = none := rfl
            rw [hext]
            dsimp only
            exact hfr
          | true =>
            cases hlf : lb.freed with
            | true =>
              have hesz : (if (true = true) then alloc_size n - lb.size
                  else cmax (alloc_size n) CHUNKSIZE) =
                  alloc_size n - lb.size := rfl
              rw [hesz]
              unfold extend_heap
              dsimp only
              rw [if_pos rfl]
              rw [coalesce_eq2 st.fl st.frees st.heap (heap_end st)
                ⟨alloc_size n - lb.size, true, alloc_size n - lb.size, true⟩
                [] la lb hl hlf rfl]
              dsimp only
              have hmemla : la ∈ st.fl (map_to_class lb.size) :=
                hinv3 _ hmem_l hlf
              have he := totalFL_flErase st.fl (map_to_class lb.size) la
                (map_to_class_nonneg hl32 hl64) (map_to_class_le_15 _)
                hmemla
              have hm32 : 32 ≤ lb.size + (alloc_size n - lb.size) := by
                omega
              have hm64 : lb.size + (alloc_size n - lb.size) < 2 ^ 64 := by
                omega
              have hcons := totalFL_flCons
                (flErase st.fl (map_to_class lb.size) la)
                (map_to_class (lb.size + (alloc_size n - lb.size))) la
                (map_to_class_nonneg hm32 hm64) (map_to_class_le_15 _)
              apply split_block_counter _ la (alloc_size n)
                (set_free (set_size lb (lb.size + (alloc_size n - lb.size)))
                  true)
              · exact lookupBlk_append _ _ _ _ hlanotpre
              · dsimp only
                exact mem_flCons_self _ _ _
              · exact hm32
              · exact hm64
              · dsimp only
                omega
            | false =>
              have hesz : (if (false = true) then alloc_size n - lb.size
                  else cmax (alloc_size n) CHUNKSIZE) =
                  cmax (alloc_size n) CHUNKSIZE := rfl
              rw [hesz]
              unfold extend_heap
              dsimp only
              rw [if_pos rfl]
              rw [coalesce_eq1 st.fl st.frees st.heap (heap_end st)
                ⟨cmax (alloc_size n) CHUNKSIZE, true,
                  cmax (alloc_size n) CHUNKSIZE, true⟩
                [] (by rw [hl]; exact hlf) rfl]
              dsimp only
              have hc32 : 32 ≤ cmax (alloc_size n) CHUNKSIZE := by
                unfold cmax CHUNKSIZE
                split <;> omega
              have hc64 : cmax (alloc_size n) CHUNKSIZE < 2 ^ 64 := by
                unfold cmax CHUNKSIZE
                split <;> omega
              have hcons := totalFL_flCons st.fl
                (map_to_class (cmax (alloc_size n) CHUNKSIZE)) (heap_end st)
                (map_to_class_nonneg hc32 hc64) (map_to_class_le_15 _)
              apply split_block_counter _ (heap_end st) (alloc_size n)
                ⟨cmax (alloc_size n) CHUNKSIZE, true,
                  cmax (alloc_size n) CHUNKSIZE, true⟩
              · exact lookupBlk_append st.heap [] _ _ hend
              · dsimp only
                exact mem_flCons_self _ _ _
              · exact hc32
              · exact hc64
              · dsimp only
                omega
  · -- free
    unfold mm_free
    by_cases hp0 : ptr = 0
    · rw [if_pos hp0]
      exact hfr
    · rw [if_neg hp0]
      dsimp only
      cases hz : heap_zipper st.heap (ptr - HSIZE) with
      | none =>
        exact hfr
      | some q =>
        obtain ⟨pre, b, post⟩ := q
        dsimp only
        have hheap : st.heap = pre ++ (ptr - HSIZE, b) :: post :=
          heap_zipper_eq _ _ _ _ _ hz
        have hmem_b : (ptr - HSIZE, b) ∈ st.heap := by
          rw [hheap]
          exact List.mem_append_right _ (List.mem_cons_self _ _)
        have hb32 : 32 ≤ b.size := hmin _ hmem_b
        have hb64 : b.size < 2 ^ 64 :=
          lt_of_le_of_lt (size_le_heapSize _ _ hmem_b) hsz
        have hnd2 : (pre.map Prod.fst ++ (ptr - HSIZE) ::
            post.map Prod.fst).Nodup := by
          have hx := hnd
          rw [hheap] at hx
          simpa using hx
        have hnd3 := List.nodup_cons.mp (List.nodup_middle.mp hnd2)
        have hsfb : (set_free b true).size = b.size := rfl
        have hszdecomp : heapSize st.heap =
            heapSize pre + b.size + heapSize post := by
          rw [hheap, heapSize_append_cons]
        cases hPF : (match pre.getLast? with
            | some p => p.2.freed
            | none => false) with
        | false =>
          cases hNF : (match post.head? with
              | some p => p.2.freed
              | none => false) with
          | false =>
            rw [coalesce_eq1 st.fl st.frees pre (ptr - HSIZE)
              (set_free b true) post hPF hNF]
            dsimp only
            have hcons := totalFL_flCons st.fl
              (map_to_class (set_free b true).size) (ptr - HSIZE)
              (by rw [hsfb]; exact map_to_class_nonneg hb32 hb64)
              (map_to_class_le_15 _)
            omega
          | true =>
            obtain ⟨na, nb, post', hpost, hnf⟩ :
                ∃ na nb post', post = (na, nb) :: post' ∧ nb.freed = true
              := by
              cases post with
              | nil => simp at hNF
              | cons q post' =>
                rw [List.head?_cons] at hNF
                exact ⟨q.1, q.2, post', rfl, hNF⟩
            subst hpost
            have hmem_n : (na, nb) ∈ st.heap := by
              rw [hheap]
              exact List.mem_append_right _
                (List.mem_cons_of_mem _ (List.mem_cons_self _ _))
            have hn32 : 32 ≤ nb.size := hmin _ hmem_n
            have hn64 : nb.size < 2 ^ 64 :=
              lt_of_le_of_lt (size_le_heapSize _ _ hmem_n) hsz
            have hmemna : na ∈ st.fl (map_to_class nb.size) :=
              hinv3 _ hmem_n hnf
            have hszpost : heapSize ((na, nb) :: post') =
                nb.size + heapSize post' := by
              unfold heapSize
              rw [List.map_cons, List.sum_cons]
            rw [coalesce_eq3 st.fl st.frees pre (ptr - HSIZE)
              (set_free b true) ((na, nb) :: post') na nb
              (by rw [List.head?_cons]) hnf hPF]
            dsimp only
            have he := totalFL_flErase st.fl (map_to_class nb.size) na
              (map_to_class_nonneg hn32 hn64) (map_to_class_le_15 _) hmemna
            have hcons := totalFL_flCons
              (flErase st.fl (map_to_class nb.size) na)
              (map_to_class ((set_free b true).size + nb.size))
              (ptr - HSIZE)
              (map_to_class_nonneg (by rw [hsfb]; omega)
                (by rw [hsfb]; omega))
              (map_to_class_le_15 _)
            omega
        | true =>
          obtain ⟨pa, pb, hpl, hpf⟩ :
              ∃ pa pb, pre.getLast? = some (pa, pb) ∧ pb.freed = true := by
            cases hq : pre.getLast? with
            | none =>
              rw [hq] at hPF
              simp at hPF
            | some p =>
              rw [hq] at hPF
              exact ⟨p.1, p.2, rfl, hPF⟩
          have hpre_eq : pre.dropLast ++ [(pa, pb)] = pre :=
            List.dropLast_append_getLast? _ (Option.mem_def.mpr hpl)
          have hmem_p : (pa, pb) ∈ st.heap := by
            rw [hheap]
            exact List.mem_append_left _ (List.mem_of_getLast?_eq_some hpl)
          have hp32 : 32 ≤ pb.size := hmin _ hmem_p
          have hp64 : pb.size < 2 ^ 64 :=
            lt_of_le_of_lt (size_le_heapSize _ _ hmem_p) hsz
          have hmempa : pa ∈ st.fl (map_to_class pb.size) :=
            hinv3 _ hmem_p hpf
          have hszpre : heapSize pre = heapSize pre.dropLast + pb.size := by
            conv_lhs => rw [← hpre_eq]
            rw [heapSize_append_cons]
            dsimp only
            have hz0 : heapSize ([] : List (Nat × Blk)) = 0 := rfl
            omega
          cases hNF : (match post.head? with
              | some p => p.2.freed
              | none => false) with
          | false =>
            rw [coalesce_eq2 st.fl st.frees pre (ptr - HSIZE)
              (set_free b true) post pa pb hpl hpf hNF]
            dsimp only
            have he := totalFL_flErase st.fl (map_to_class pb.size) pa
              (map_to_class_nonneg hp32 hp64) (map_to_class_le_15 _) hmempa
            have hcons := totalFL_flCons
              (flErase st.fl (map_to_class pb.size) pa)
              (map_to_class (pb.size + (set_free b true).size)) pa
              (map_to_class_nonneg (by rw [hsfb]; omega)
                (by rw [hsfb]; omega))
              (map_to_class_le_15 _)
            omega
          | true =>
            obtain ⟨na, nb, post', hpost, hnf⟩ :
                ∃ na nb post', post = (na, nb) :: post' ∧ nb.freed = true
              := by
              cases post with
              | nil => simp at hNF
              | cons q post' =>
                rw [List.head?_cons] at hNF
                exact ⟨q.1, q.2, post', rfl, hNF⟩
            subst hpost
            have hmem_n : (na, nb) ∈ st.heap := by
              rw [hheap]
              exact List.mem_append_right _
                (List.mem_cons_of_mem _ (List.mem_cons_self _ _))
            have hn32 : 32 ≤ nb.size := hmin _ hmem_n
            have hn64 : nb.size < 2 ^ 64 :=
              lt_of_le_of_lt (size_le_heapSize _ _ hmem_n) hsz
            have hmemna : na ∈ st.fl (map_to_class nb.size) :=
              hinv3 _ hmem_n hnf
            have hpane : pa ≠ na := by
              intro hc
              subst hc
              have hdisj := (List.nodup_append.mp hnd3.2).2.2
              have hx : pa ∈ pre.map Prod.fst := by
                rw [← hpre_eq]
                simp
              exact hdisj hx (by simp)
            have hszpost : heapSize ((na, nb) :: post') =
                nb.size + heapSize post' := by
              unfold heapSize
              rw [List.map_cons, List.sum_cons]
            rw [coalesce_eq4 st.fl st.frees pre (ptr - HSIZE)
              (set_free b true) ((na, nb) :: post') pa na pb nb hpl hpf
              (by rw [List.head?_cons]) hnf]
            dsimp only
            have he1 := totalFL_flErase st.fl (map_to_class nb.size) na
              (map_to_class_nonneg hn32 hn64) (map_to_class_le_15 _) hmemna
            have hmempa2 : pa ∈
                (flErase st.fl (map_to_class nb.size) na)
                  (map_to_class pb.size) :=
              mem_flErase_of_ne st.fl (map_to_class nb.size)
                (map_to_class pb.size) pa na hmempa hpane
            have he2 := totalFL_flErase
              (flErase st.fl (map_to_class nb.size) na)
              (map_to_class pb.size) pa
              (map_to_class_nonneg hp32 hp64) (map_to_class_le_15 _)
              hmempa2
            have hcons := totalFL_flCons
              (flErase (flErase st.fl (map_to_class nb.size) na)
                (map_to_class pb.size) pa)
              (map_to_class (pb.size + (set_free b true).size + nb.size))
              pa
              (map_to_class_nonneg (by rw [hsfb]; omega)
                (by rw [hsfb]; omega))
              (map_to_class_le_15 _)
            omega

end MM

namespace MM

/-- Witness state for C10: one allocated 64-byte block, empty index,
    counter zero. -/
def c10St : AllocSt :=
  ⟨[(0, ⟨64, false, 64, false⟩)], (fun _ => []), 0⟩

theorem c10_witness :
    c10St.frees = (totalFL c10St.fl : Int) ∧
    (mm_malloc c10St true 1).st.frees =
      (totalFL (mm_malloc c10St true 1).st.fl : Int) ∧
    (mm_free c10St 32).frees = (totalFL (mm_free c10St 32).fl : Int) := by
  have h := c10_frees_totalFL c10St true 1 32
    (by decide)
    (by
      intro k hk x hx
      exact absurd hx (List.not_mem_nil x))
    (by decide)
    (by decide)
    (by decide)
    (by decide)
    (by decide)
    (by decide)
  exact ⟨by decide, h.1, h.2⟩

end MM
